import Mathlib

/-!
Verification of the data-cache + column-normalization core of `aktools-pro`
(`mcp_aktools/shared/normalize.py`, `mcp_aktools/shared/schema.py`, and the
spec-described data cache).

The embedding models a pandas DataFrame as an ordered column header plus a
list of rows of cells.  Machine floats are modelled as exact rationals;
`"%.Nf"` float formats are modelled by their digit count `N`.  Text output is
built over `List Char` and wrapped into `String` at the boundary, mirroring
the Python code's CSV rendering (`to_csv(index=False)` with `\n` line
terminator, `csv.writer` with `\r\n`), python `str.strip`, and minimal CSV
quoting.
-/

/-- An exact decimal number `m / 10^s`, the modelled value domain of the
float64 cells this pipeline produces (decimal-string parsing and fixed-point
formatting are the only float operations the code performs). -/
structure Dec where
  m : Int
  s : Nat
deriving Repr, DecidableEq, Inhabited

/-- Cells of a raw or normalized table: null (None/NaN/NaT), strings, the two
numeric dtypes, and datetime values (nanoseconds since the epoch). -/
inductive Cell where
  | null : Cell
  | str : String → Cell
  | int : Int → Cell
  | float : Dec → Cell
  | date : Int → Cell
deriving Repr, DecidableEq, Inhabited

/-- A table: ordered column names plus rows of cells (row-major). -/
structure DataFrame where
  header : List String
  rows : List (List Cell)
deriving Repr, DecidableEq, Inhabited

/-- Pandas `DataFrame.empty`: true when either axis has length zero. -/
def DataFrame.empty (df : DataFrame) : Bool :=
  df.rows.isEmpty || df.header.isEmpty

/-- Well-formed table: every row has exactly one cell per header label. -/
abbrev DataFrame.WF (df : DataFrame) : Prop :=
  ∀ r ∈ df.rows, r.length = df.header.length

/-! ### Character-level text helpers -/

/-- Python `str.strip()` (leading part): drop leading whitespace. -/
def trimLeadCh (l : List Char) : List Char := l.dropWhile Char.isWhitespace

/-- Python `str.strip()` (trailing part): drop trailing whitespace. -/
def trimTrailCh (l : List Char) : List Char :=
  (l.reverse.dropWhile Char.isWhitespace).reverse

/-- Python `str.strip()` on a character list. -/
def pyStripCh (l : List Char) : List Char := trimTrailCh (trimLeadCh l)

/-- Join character lists with a separator character. -/
def joinCh (sep : Char) : List (List Char) → List Char
  | [] => []
  | [x] => x
  | x :: y :: xs => x ++ sep :: joinCh sep (y :: xs)

/-- Join lines, terminating every line with a newline, as csv writers do. -/
def unlinesCh : List (List Char) → List Char
  | [] => []
  | x :: xs => x ++ '\n' :: unlinesCh xs

/-- Split a character list at every occurrence of a character. -/
def splitChAux (c : Char) : List Char → List (List Char)
  | [] => [[]]
  | x :: xs =>
    let r := splitChAux c xs
    if x = c then [] :: r else (x :: r.headD []) :: r.tail

/-- The first physical line of a text. -/
def firstLineCh (l : List Char) : List Char := l.takeWhile (fun c => c ≠ '\n')

/-- The column names appearing in the first (header) line of an output text. -/
def headerCols (s : String) : List String :=
  (splitChAux ',' (firstLineCh s.data)).map (fun l => (⟨l⟩ : String))

/-- A character forcing CSV minimal quoting (delimiter, quote char, CR, LF). -/
def csvSpecial (c : Char) : Bool :=
  c = ',' || c = '"' || c = '\r' || c = '\n'

/-- Minimal CSV quoting of a single field, as `csv.writer` / `to_csv` do:
quote only when a special character occurs, doubling embedded quotes. -/
def csvFieldCh (l : List Char) : List Char :=
  if l.any csvSpecial then
    '"' :: (l.foldr (fun c acc => if c = '"' then '"' :: '"' :: acc else c :: acc) ['"'])
  else l

/-! ### Schema registry (`schema.py`) -/

def PRICE_COLUMNS : List String :=
  ["date", "open", "high", "low", "close", "volume", "amount", "currency", "source"]

def INDICATOR_COLUMNS : List String :=
  ["macd", "dif", "dea", "kdj_k", "kdj_d", "kdj_j", "rsi", "boll_u", "boll_m", "boll_l"]

def RATE_COLUMNS : List String := ["date", "rate", "currency", "source"]

def ERROR_COLUMNS : List String := ["error", "source", "fallback"]

/-- One `csv.writer.writerow` record: comma-joined quoted fields plus CRLF. -/
def csvRowCrlf (fields : List String) : List Char :=
  joinCh ',' (fields.map (fun f => csvFieldCh f.data)) ++ ['\r', '\n']

/-- `format_error_csv(error, source, fallback=None)` from `schema.py`:
two `csv.writer` rows (header `ERROR_COLUMNS`, then the given values with
`fallback or ""`), then Python `str.strip()`. -/
def format_error_csv (error source : String) (fallback : Option String) : String :=
  ⟨pyStripCh (csvRowCrlf ERROR_COLUMNS ++ csvRowCrlf [error, source, fallback.getD ""])⟩

/-! ### Value parsing (`pd.to_numeric` / `pd.to_datetime`, `errors="coerce"`) -/

/-- Accumulate decimal digits; fail at the first non-digit. -/
def digitsValCore : List Char → Nat → Option Nat
  | [], acc => some acc
  | c :: rest, acc =>
    if c.isDigit then digitsValCore rest (acc * 10 + (c.toNat - 48)) else none

/-- Digits of a nonempty numeral. -/
def digitsVal? (l : List Char) : Option Nat :=
  if l.isEmpty then none else digitsValCore l 0

/-- Strip an optional sign, returning the sign factor. -/
def splitSign : List Char → Int × List Char
  | '-' :: rest => (-1, rest)
  | '+' :: rest => (1, rest)
  | l => (1, l)

/-- Parse a string as an integer numeral (optional sign, digits only),
after stripping surrounding whitespace as `pd.to_numeric` does. -/
def parseIntStr? (s : String) : Option Int :=
  (digitsVal? (splitSign (pyStripCh s.data)).2).map
    (fun n => (splitSign (pyStripCh s.data)).1 * n)

/-- Parse a string as a decimal number (optional sign, digits, optional
fractional part), whitespace-stripped.  Scientific notation is out of the
modelled fragment. -/
def parseDecimalStr? (s : String) : Option Dec :=
  match splitChAux '.' (splitSign (pyStripCh s.data)).2 with
  | [ip] =>
    (digitsVal? ip).map (fun n => Dec.mk ((splitSign (pyStripCh s.data)).1 * n) 0)
  | [ip, fp] =>
    match digitsVal? ip, digitsVal? fp with
    | some n, some f =>
      some ⟨(splitSign (pyStripCh s.data)).1 * ((n : Int) * 10 ^ fp.length + f), fp.length⟩
    | _, _ => none
  | _ => none

/-- `pd.to_numeric(x, errors="coerce")` on one cell: the parsed value, or
none for an unparsable / missing cell. -/
def toNumericCell : Cell → Option Dec
  | .null => none
  | .str s => parseDecimalStr? s
  | .int n => some ⟨n, 0⟩
  | .float q => some q
  | .date _ => none

/-- A cell carrying an integer-typed value (used for the int64/float64 dtype
decision `pd.to_numeric` makes for a whole column). -/
def cellIntRepr : Cell → Option Int
  | .int n => some n
  | .str s => parseIntStr? s
  | _ => none

/-- `pd.to_numeric(column, errors="coerce")`: int64 when every cell is
integer-typed, otherwise float64 with unparsable cells coerced to null. -/
def toNumericCol (vals : List Cell) : List Cell :=
  if vals.all (fun c => (cellIntRepr c).isSome) then
    vals.map (fun c => Cell.int ((cellIntRepr c).getD 0))
  else
    vals.map (fun c =>
      match toNumericCell c with
      | some q => Cell.float q
      | none => Cell.null)

def NS_PER_DAY : Int := 86400000000000

/-- Nanoseconds per unit for `pd.to_datetime`'s `unit` argument
(absent = nanoseconds, "s", "ms", "us"). -/
def unitNs : Option String → Int
  | none => 1
  | some u => if u = "s" then 1000000000 else if u = "ms" then 1000000 else
      if u = "us" then 1000 else 1

/-- Parse a 4-digit number. -/
def parse4? : List Char → Option Int
  | [a, b, c, d] => (digitsVal? [a, b, c, d]).map Int.ofNat
  | _ => none

/-- Parse a 2-digit number. -/
def parse2? : List Char → Option Int
  | [a, b] => (digitsVal? [a, b]).map Int.ofNat
  | _ => none

/-- Days from the epoch for a civil date (standard civil-from-days inverse). -/
def daysFromCivil (y m d : Int) : Int :=
  let y' := if m ≤ 2 then y - 1 else y
  let era := (if 0 ≤ y' then y' else y' - 399) / 400
  let yoe := y' - era * 400
  let mp := (m + 9) % 12
  let doy := (153 * mp + 2) / 5 + d - 1
  let doe := yoe * 365 + yoe / 4 - yoe / 100 + doy
  era * 146097 + doe - 719468

/-- Civil date from days since the epoch. -/
def civilFromDays (z : Int) : Int × Int × Int :=
  let z := z + 719468
  let era := z.ediv 146097
  let doe := z - era * 146097
  let yoe := (doe - doe / 1460 + doe / 36524 - doe / 146096) / 365
  let y := yoe + era * 400
  let doy := doe - (365 * yoe + yoe / 4 - yoe / 100)
  let mp := (5 * doy + 2) / 153
  let d := doy - (153 * mp + 2) / 5 + 1
  let m := mp + (if mp < 10 then 3 else -9)
  (y + (if m ≤ 2 then 1 else 0), m, d)

/-- Parse an ISO `YYYY-MM-DD` date string to days since the epoch.  This is
the modelled fragment of `pd.to_datetime`'s string parsing; anything else is
coerced to null (as `errors="coerce"` does for unparsable strings). -/
def parseIsoDate? (s : String) : Option Int :=
  match pyStripCh s.data with
  | [y1, y2, y3, y4, '-', m1, m2, '-', d1, d2] =>
    match parse4? [y1, y2, y3, y4], parse2? [m1, m2], parse2? [d1, d2] with
    | some y, some m, some d =>
      if 1 ≤ m ∧ m ≤ 12 ∧ 1 ≤ d ∧ d ≤ 31 then some (daysFromCivil y m d) else none
    | _, _, _ => none
  | _ => none

/-- `pd.to_datetime(x, errors="coerce", unit=du)` on one cell: numbers are
epochs in the given unit, strings are parsed (or coerced to null),
datetimes pass through, null stays null. -/
def toDatetimeCell (du : Option String) : Cell → Cell
  | .null => .null
  | .int n => .date (n * unitNs du)
  | .float q => .date ((q.m * unitNs du).fdiv ((10 : Int) ^ q.s))
  | .date t => .date t
  | .str s =>
    match parseIsoDate? s with
    | some days => .date (days * NS_PER_DAY)
    | none => .null

/-! ### DataFrame operations -/

/-- Position of a label in a header list (first occurrence). -/
def colIdxAux (c : String) : List String → Option Nat
  | [] => none
  | h :: t => if h = c then some 0 else (colIdxAux c t).map (fun i => i + 1)

/-- Index of a column label (pandas label lookup; provider tables have unique
labels, so first occurrence). -/
def colIdx? (df : DataFrame) (c : String) : Option Nat :=
  colIdxAux c df.header

/-- The cells of a column (empty when the label is absent). -/
def getCol (df : DataFrame) (c : String) : List Cell :=
  match colIdx? df c with
  | some i => df.rows.map (fun r => r.getD i Cell.null)
  | none => []

/-- Assign a whole column (`df[c] = vals`): overwrite in place when the label
exists, else append a new column on the right. -/
def setCol (df : DataFrame) (c : String) (vals : List Cell) : DataFrame :=
  match colIdx? df c with
  | some i => ⟨df.header, (df.rows.zip vals).map (fun p => p.1.set i p.2)⟩
  | none => ⟨df.header ++ [c], (df.rows.zip vals).map (fun p => p.1 ++ [p.2])⟩

/-- Assign a scalar to a whole column (`df[c] = scalar`). -/
def setColScalar (df : DataFrame) (c : String) (v : Cell) : DataFrame :=
  match colIdx? df c with
  | some i => ⟨df.header, df.rows.map (fun r => r.set i v)⟩
  | none => ⟨df.header ++ [c], df.rows.map (fun r => r ++ [v])⟩

/-- `df.rename(columns={old: new})`: relabel matching column names. -/
def renameCol (old new : String) (df : DataFrame) : DataFrame :=
  ⟨df.header.map (fun c => if c = old then new else c), df.rows⟩

/-- The rename loop of `normalize_price_df` / `normalize_rate_df`:
for each `(canonical, original)` pair, rename when `original` is present. -/
def applyColumnMap (m : List (String × String)) (df : DataFrame) : DataFrame :=
  m.foldl (fun d p => if p.2 ∈ d.header then renameCol p.2 p.1 d else d) df

/-- `_ensure_columns` from `normalize.py`: add each missing column as
all-null (`df[col] = None`). -/
def ensure_columns (df : DataFrame) (columns : List String) : DataFrame :=
  columns.foldl
    (fun d c =>
      if c ∈ d.header then d
      else ⟨d.header ++ [c], d.rows.map (fun r => r ++ [Cell.null])⟩)
    df

/-- Sort key of a date cell: parsed datetimes order by value, nulls last. -/
def dateLe (a b : Cell) : Bool :=
  match a, b with
  | .date x, .date y => x ≤ y
  | .date _, _ => true
  | _, .date _ => false
  | _, _ => true

/-- Insert into a sorted list (ascending by `le`). -/
def insertRow (le : α → α → Bool) (x : α) : List α → List α
  | [] => [x]
  | y :: ys => if le x y then x :: y :: ys else y :: insertRow le x ys

/-- Insertion sort; models `sort_values` (ascending, `na_position="last"`). -/
def sortRows (le : α → α → Bool) : List α → List α
  | [] => []
  | x :: xs => insertRow le x (sortRows le xs)

/-- `data.sort_values("date")`: sort rows ascending by the date column,
nulls (NaT) last.  A no-op when the label is absent. -/
def sortByDate (df : DataFrame) : DataFrame :=
  match colIdx? df "date" with
  | none => df
  | some i =>
    ⟨df.header,
     sortRows (fun r s => dateLe (r.getD i Cell.null) (s.getD i Cell.null)) df.rows⟩

/-- `df.tail(n)` (positional): the last `n` rows for positive `n`, nothing
for `n = 0`, and all but the first `|n|` rows for negative `n`. -/
def pdTail (n : Int) (rows : List (List Cell)) : List (List Cell) :=
  if n = 0 then []
  else if 0 < n then rows.drop (rows.length - n.toNat)
  else rows.drop (-n).toNat

/-! ### CSV rendering (`DataFrame.to_csv(columns=…, index=False, float_format=…)`) -/

/-- Left-pad a numeral with zeros. -/
def padZeros (w : Nat) (l : List Char) : List Char :=
  List.replicate (w - l.length) '0' ++ l

/-- Decimal digits of a nonnegative integer. -/
def natDigits (n : Nat) : List Char := (toString n).data

/-- The value of a decimal scaled to `d` places and rounded half up:
`floor(m / 10^s * 10^d + 1/2)` computed with integer arithmetic. -/
def decScaled (d : Nat) (q : Dec) : Int :=
  if q.s ≤ d then q.m * 10 ^ (d - q.s)
  else (2 * q.m + 10 ^ (q.s - d)).fdiv (2 * 10 ^ (q.s - d))

/-- Render a nonnegative decimal with `d` fixed places (the modelled
`"%.df"` float format). -/
def renderRatNN (d : Nat) (q : Dec) : List Char :=
  let scaled := decScaled d q
  let base : Int := (10 : Int) ^ d
  let ip := scaled / base
  let fp := scaled % base
  if d = 0 then natDigits ip.toNat
  else natDigits ip.toNat ++ '.' :: padZeros d (natDigits fp.toNat)

/-- Render a decimal number with `d` fixed places. -/
def renderRat (d : Nat) (q : Dec) : List Char :=
  if q.m < 0 then '-' :: renderRatNN d ⟨-q.m, q.s⟩ else renderRatNN d q

/-- Render a day count as `YYYY-MM-DD`. -/
def renderDateOnly (days : Int) : List Char :=
  let c := civilFromDays days
  padZeros 4 (natDigits c.1.toNat) ++ '-' :: padZeros 2 (natDigits c.2.1.toNat)
    ++ '-' :: padZeros 2 (natDigits c.2.2.toNat)

/-- Render a nanosecond timestamp the way pandas prints a `Timestamp`:
date, time of day, and the shortest of ms/us/ns fractional precision. -/
def renderDateFull (t : Int) : List Char :=
  let days := t.ediv NS_PER_DAY
  let tod := t.emod NS_PER_DAY
  let secs := tod / 1000000000
  let frac := tod % 1000000000
  let hh := secs / 3600
  let mm := secs / 60 % 60
  let ss := secs % 60
  let timePart :=
    padZeros 2 (natDigits hh.toNat) ++ ':' :: padZeros 2 (natDigits mm.toNat)
      ++ ':' :: padZeros 2 (natDigits ss.toNat)
  let fracPart :=
    if frac = 0 then []
    else if frac % 1000000 = 0 then '.' :: padZeros 3 (natDigits (frac / 1000000).toNat)
    else if frac % 1000 = 0 then '.' :: padZeros 6 (natDigits (frac / 1000).toNat)
    else '.' :: padZeros 9 (natDigits frac.toNat)
  renderDateOnly days ++ ' ' :: (timePart ++ fracPart)

/-- Whether a datetime column renders date-only (pandas prints bare dates
when every timestamp in the column is midnight-aligned). -/
def colDatesOnly (cells : List Cell) : Bool :=
  cells.all (fun c =>
    match c with
    | .date t => t % NS_PER_DAY = 0
    | _ => true)

/-- Render one cell for CSV output: null as empty, strings CSV-quoted,
int64 plainly, float64 through the float format, datetimes date-only or in
full depending on the column flag. -/
def renderCell (d : Nat) (datesOnly : Bool) : Cell → List Char
  | .null => []
  | .str s => csvFieldCh s.data
  | .int n => (toString n).data
  | .float q => renderRat d q
  | .date t => if datesOnly then renderDateOnly (t.ediv NS_PER_DAY) else renderDateFull t

/-- The cell of a row under a column label. -/
def cellAt (df : DataFrame) (row : List Cell) (c : String) : Cell :=
  match colIdx? df c with
  | some i => row.getD i Cell.null
  | none => Cell.null

/-- `df.to_csv(columns=cols, index=False, float_format="%.df")` as characters:
header line of the selected column names, then one line per row, every line
newline-terminated. -/
def toCsvCh (cols : List String) (d : Nat) (df : DataFrame) : List Char :=
  let flags := cols.map (fun c => colDatesOnly (getCol df c))
  let hdr := joinCh ',' (cols.map (fun c => csvFieldCh c.data))
  let body := df.rows.map (fun r =>
    joinCh ',' ((cols.zip flags).map (fun p => renderCell d p.2 (cellAt df r p.1))))
  unlinesCh (hdr :: body)

/-! ### The normalizers (`normalize.py`) -/

def NUMERIC_PRICE_COLS : List String := ["open", "high", "low", "close", "volume", "amount"]

/-- The numeric-coercion loop: coerce each listed column present in the frame. -/
def coerceNumericCols (cols : List String) (df : DataFrame) : DataFrame :=
  cols.foldl
    (fun d c => if c ∈ d.header then setCol d c (toNumericCol (getCol d c)) else d)
    df

/-- The date block: when a `date` column exists, convert it with
`pd.to_datetime(errors="coerce")` and sort ascending by it. -/
def convertDate (du : Option String) (df : DataFrame) : DataFrame :=
  if "date" ∈ df.header then
    sortByDate (setCol df "date" ((getCol df "date").map (toDatetimeCell du)))
  else df

/-- The `if indicator_map:` block (falsy for `None` and for an empty map):
apply the indicator renames, then coerce present indicator columns. -/
def indicatorStep (im : Option (List (String × String))) (df : DataFrame) : DataFrame :=
  match im with
  | none => df
  | some m =>
    if m.isEmpty then df
    else coerceNumericCols INDICATOR_COLUMNS (applyColumnMap m df)

/-- The price body from the copy up to (excluding) `_ensure_columns`:
renames, date conversion/sort, numeric coercions, indicator block. -/
def priceMid (df : DataFrame) (cm : List (String × String))
    (du : Option String) (im : Option (List (String × String))) : DataFrame :=
  indicatorStep im (coerceNumericCols NUMERIC_PRICE_COLS (convertDate du (applyColumnMap cm df)))

/-- The whole `normalize_price_df` body between the copy and the `tail`:
renames, date conversion/sort, numeric coercions, indicator block,
`_ensure_columns`, and attaching `currency` / `source`. -/
def pricePipeline (df : DataFrame) (cm : List (String × String)) (src cur : String)
    (du : Option String) (im : Option (List (String × String))) : DataFrame :=
  setColScalar
    (setColScalar (ensure_columns (priceMid df cm du im) PRICE_COLUMNS)
      "currency" (Cell.str cur))
    "source" (Cell.str src)

/-- `tail = data.tail(limit)` applied to the price pipeline's result. -/
def priceTail (df : DataFrame) (cm : List (String × String)) (src cur : String)
    (limit : Int) (du : Option String) (im : Option (List (String × String))) : DataFrame :=
  let data := pricePipeline df cm src cur du im
  ⟨data.header, pdTail limit data.rows⟩

/-- `normalize_price_df` from `normalize.py`. -/
def normalize_price_df (df : Option DataFrame) (cm : List (String × String))
    (src cur : String) (limit : Int) (fmt : Nat) (du : Option String)
    (im : Option (List (String × String))) : String :=
  match df with
  | none => format_error_csv "empty data" src none
  | some df =>
    if df.empty then format_error_csv "empty data" src none
    else
      let tl := priceTail df cm src cur limit du im
      let columns := PRICE_COLUMNS ++ INDICATOR_COLUMNS.filter (fun c => c ∈ tl.header)
      ⟨pyStripCh (toCsvCh columns fmt tl)⟩

/-- The rate body from the frame construction up to (excluding)
`_ensure_columns`: renames, date conversion/sort, rate coercion. -/
def rateMid (df : DataFrame) (cm : List (String × String)) (du : Option String) : DataFrame :=
  let data := convertDate du (applyColumnMap cm df)
  if "rate" ∈ data.header then setCol data "rate" (toNumericCol (getCol data "rate"))
  else data

/-- The `normalize_rate_df` body between the `pd.DataFrame(df)` and the tail. -/
def ratePipeline (df : DataFrame) (cm : List (String × String)) (src cur : String)
    (du : Option String) : DataFrame :=
  setColScalar
    (setColScalar (ensure_columns (rateMid df cm du) RATE_COLUMNS)
      "currency" (Cell.str cur))
    "source" (Cell.str src)

/-- `tail = data.tail(limit)` applied to the rate pipeline's result. -/
def rateTail (df : DataFrame) (cm : List (String × String)) (src cur : String)
    (limit : Int) (du : Option String) : DataFrame :=
  let data := ratePipeline df cm src cur du
  ⟨data.header, pdTail limit data.rows⟩

/-- `normalize_rate_df` from `normalize.py`. -/
def normalize_rate_df (df : Option DataFrame) (cm : List (String × String))
    (src cur : String) (limit : Int) (fmt : Nat) (du : Option String) : String :=
  match df with
  | none => format_error_csv "empty data" src none
  | some df =>
    if df.empty then format_error_csv "empty data" src none
    else ⟨pyStripCh (toCsvCh RATE_COLUMNS fmt (rateTail df cm src cur limit du))⟩

/-! ### The data cache

Modelled from the spec: the cache module itself (`mcp_aktools/cache.py` with
`CacheKey.ALL` and `mcp_aktools.shared.utils.ak_cache`) is not among the
visible sources — only its tests and callers are — so `cached_call` below
follows spec §4.1 (Data Cache): look the key up; on an unexpired entry return
the stored value without invoking the producer; otherwise invoke the
producer, store the value with `expires_at = now + ttl`, and return it.  The
third component of the result counts producer invocations made by the call. -/

structure CacheEntry (V : Type) where
  value : V
  expires_at : Int
deriving Repr, DecidableEq

/-- The process-wide registry, keyed by provider identity + canonical args. -/
def CacheMap (K V : Type) : Type := List (K × CacheEntry V)

/-- Registry lookup. -/
def cacheLookup [DecidableEq K] (m : CacheMap K V) (k : K) : Option (CacheEntry V) :=
  (List.find? (fun p => decide (p.1 = k)) m).map (fun p => p.2)

/-- Store overwrites the entry for the key (created on first write). -/
def cacheStore [DecidableEq K] (m : CacheMap K V) (k : K) (e : CacheEntry V) : CacheMap K V :=
  if (List.find? (fun p => decide (p.1 = k)) m).isSome then
    List.map (fun p => if p.1 = k then (k, e) else p) m
  else (k, e) :: m

/-- Modelled from the spec: `cached_call(producer, ttl_seconds, *args)`.
The key stands for (producer identity, canonical arguments); the producer is
forced only on a miss.  Returns (value, new registry, producer invocations). -/
def cached_call [DecidableEq K] (m : CacheMap K V) (k : K) (producer : Unit → V)
    (ttl now : Int) : V × CacheMap K V × Nat :=
  match cacheLookup m k with
  | some e =>
    if now < e.expires_at then (e.value, m, 0)
    else
      let v := producer ()
      (v, cacheStore m k ⟨v, now + ttl⟩, 1)
  | none =>
    let v := producer ()
    (v, cacheStore m k ⟨v, now + ttl⟩, 1)

/-! ### Heap-passing rendition of `normalize_price_df`

For the frame-effect claim, the body is replayed with the caller's dataframe
and the local `data` as distinct slots of an explicit heap: `df.copy()`
allocates a fresh slot (pandas deep copy), and every `inplace` / `df[col] =`
mutation hits only the `data` slot. -/

def emptyFrame : DataFrame := ⟨[], []⟩

/-- One in-place mutation of heap slot `i` by a frame transformer. -/
def heapMut (h : List DataFrame) (i : Nat) (f : DataFrame → DataFrame) : List DataFrame :=
  h.set i (f (h.getD i emptyFrame))

/-- The emit step shared by the pure function and the heap rendition:
`tail = data.tail(limit)`, the output column list, `to_csv(...).strip()`. -/
def priceEmit (data : DataFrame) (limit : Int) (fmt : Nat) : String :=
  let tl : DataFrame := ⟨data.header, pdTail limit data.rows⟩
  let columns := PRICE_COLUMNS ++ INDICATOR_COLUMNS.filter (fun c => c ∈ tl.header)
  ⟨pyStripCh (toCsvCh columns fmt tl)⟩

/-- `normalize_price_df` replayed over a heap; `r` is the caller's slot.
Returns the output text and the final heap. -/
def normalize_price_prog (h : List DataFrame) (r : Nat) (cm : List (String × String))
    (src cur : String) (limit : Int) (fmt : Nat) (du : Option String)
    (im : Option (List (String × String))) : String × List DataFrame :=
  let df := h.getD r emptyFrame
  if df.empty then (format_error_csv "empty data" src none, h)
  else
    let dr := h.length
    let h := h ++ [df]
    let h := heapMut h dr (applyColumnMap cm)
    let h := heapMut h dr (convertDate du)
    let h := heapMut h dr (coerceNumericCols NUMERIC_PRICE_COLS)
    let h := heapMut h dr (indicatorStep im)
    let h := heapMut h dr (fun d => ensure_columns d PRICE_COLUMNS)
    let h := heapMut h dr (fun d => setColScalar d "currency" (Cell.str cur))
    let h := heapMut h dr (fun d => setColScalar d "source" (Cell.str src))
    (priceEmit (h.getD dr emptyFrame) limit fmt, h)

/-- A ten-row example frame with its dates out of chronological order,
used as a concrete witness input. -/
def exampleScrambled : DataFrame :=
  ⟨["date", "close"],
   [[Cell.str "2024-01-05", Cell.int 5], [Cell.str "2024-01-01", Cell.int 1],
    [Cell.str "2024-01-09", Cell.int 9], [Cell.str "2024-01-03", Cell.int 3],
    [Cell.str "2024-01-07", Cell.int 7], [Cell.str "2024-01-02", Cell.int 2],
    [Cell.str "2024-01-10", Cell.int 10], [Cell.str "2024-01-04", Cell.int 4],
    [Cell.str "2024-01-08", Cell.int 8], [Cell.str "2024-01-06", Cell.int 6]]⟩

/-! ### Text lemmas -/

theorem dropWhile_all_false {p : Char → Bool} {l : List Char}
    (h : ∀ c ∈ l, p c = false) : l.dropWhile p = l := by
  cases l with
  | nil => rfl
  | cons c t => simp [List.dropWhile, h c (by simp)]

theorem trimLead_cons {c : Char} (l : List Char) (h : c.isWhitespace = false) :
    trimLeadCh (c :: l) = c :: l := by
  simp [trimLeadCh, List.dropWhile, h]

theorem trimTrail_append_nonws {l₂ : List Char} (l₁ : List Char)
    (h : ∃ c ∈ l₂, c.isWhitespace = false) :
    trimTrailCh (l₁ ++ l₂) = l₁ ++ trimTrailCh l₂ := by
  obtain ⟨c, hc, hw⟩ := h
  have hne : l₂.reverse.dropWhile Char.isWhitespace ≠ [] := by
    intro hnil
    rw [List.dropWhile_eq_nil_iff] at hnil
    have := hnil c (by simp [hc])
    simp [hw] at this
  simp only [trimTrailCh, List.reverse_append, List.dropWhile_append,
    List.isEmpty_iff, if_neg hne, List.reverse_append, List.reverse_reverse]

theorem trimTrail_all_ws_append {l₂ : List Char} (l₁ : List Char)
    (h : ∀ c ∈ l₂, c.isWhitespace = true) :
    trimTrailCh (l₁ ++ l₂) = trimTrailCh l₁ := by
  have hnil : l₂.reverse.dropWhile Char.isWhitespace = [] := by
    rw [List.dropWhile_eq_nil_iff]
    intro c hc
    exact h c (by simpa using hc)
  simp [trimTrailCh, List.reverse_append, List.dropWhile_append, hnil]

theorem trimTrail_nonws {l : List Char} (h : ∀ c ∈ l, c.isWhitespace = false) :
    trimTrailCh l = l := by
  have := dropWhile_all_false (p := Char.isWhitespace) (l := l.reverse)
    (fun c hc => h c (by simpa using hc))
  simp [trimTrailCh, this]

theorem trimTrail_last_nonws {l : List Char} {c : Char}
    (hl : l.getLast? = some c) (hw : c.isWhitespace = false) :
    trimTrailCh l = l := by
  have : l.reverse.dropWhile Char.isWhitespace = l.reverse := by
    rw [← List.head?_reverse] at hl
    cases hrev : l.reverse with
    | nil => rfl
    | cons x xs =>
      rw [hrev] at hl
      simp only [List.head?] at hl
      cases hl
      simp [List.dropWhile, hw]
  simp [trimTrailCh, this]

theorem firstLine_append_newline {l₁ : List Char} (l₂ : List Char)
    (h : ∀ c ∈ l₁, c ≠ '\n') :
    firstLineCh (l₁ ++ '\n' :: l₂) = l₁ := by
  induction l₁ with
  | nil => simp [firstLineCh, List.takeWhile_cons]
  | cons c t ih =>
    have hc : c ≠ '\n' := h c (by simp)
    have ht := ih (fun x hx => h x (by simp [hx]))
    show List.takeWhile (fun x => decide (x ≠ '\n')) ((c :: t) ++ '\n' :: l₂) = c :: t
    rw [List.cons_append, List.takeWhile_cons]
    have hcd : decide (c ≠ '\n') = true := by simp [hc]
    rw [hcd, if_pos rfl]
    exact congrArg (List.cons c) ht

theorem firstLine_no_newline {l : List Char} (h : ∀ c ∈ l, c ≠ '\n') :
    firstLineCh l = l := by
  induction l with
  | nil => rfl
  | cons c t ih =>
    have hc : c ≠ '\n' := h c (by simp)
    have ht := ih (fun x hx => h x (by simp [hx]))
    show List.takeWhile (fun x => decide (x ≠ '\n')) (c :: t) = c :: t
    rw [List.takeWhile_cons]
    have hcd : decide (c ≠ '\n') = true := by simp [hc]
    rw [hcd, if_pos rfl]
    exact congrArg (List.cons c) ht

/-- Header extraction for `to_csv`-shaped text: stripping and taking the
first line of `header ++ "\n" ++ rest` recovers the header, whenever the
header consists of non-whitespace characters. -/
theorem firstLine_strip_unlines {hdr : List Char} (rest : List Char)
    (hne : hdr ≠ []) (hnw : ∀ c ∈ hdr, c.isWhitespace = false) :
    firstLineCh (pyStripCh (hdr ++ '\n' :: rest)) = hdr := by
  obtain ⟨c0, t, rfl⟩ : ∃ c0 t, hdr = c0 :: t := by
    cases hdr with
    | nil => exact absurd rfl hne
    | cons a b => exact ⟨a, b, rfl⟩
  have hlead : trimLeadCh ((c0 :: t) ++ '\n' :: rest) = (c0 :: t) ++ '\n' :: rest := by
    rw [List.cons_append]
    exact trimLead_cons _ (hnw c0 (by simp))
  unfold pyStripCh
  rw [hlead]
  by_cases hr : ∀ c ∈ rest, c.isWhitespace = true
  · have hall : ∀ c ∈ '\n' :: rest, c.isWhitespace = true := by
      intro c hc
      rcases List.mem_cons.mp hc with h | h
      · simp [h]
      · exact hr c h
    rw [trimTrail_all_ws_append _ hall, trimTrail_nonws hnw]
    exact firstLine_no_newline (fun c hc => by
      intro hce; have := hnw c hc; rw [hce] at this; simp at this)
  · push_neg at hr
    obtain ⟨c, hc, hcw⟩ := hr
    have hwb : c.isWhitespace = false := by
      cases h : c.isWhitespace
      · rfl
      · exact absurd h hcw
    rw [trimTrail_append_nonws _ ⟨c, by simp [hc], hwb⟩]
    have : trimTrailCh ('\n' :: rest) = '\n' :: trimTrailCh rest := by
      have := @trimTrail_append_nonws rest ['\n'] ⟨c, hc, hwb⟩
      simpa using this
    rw [this]
    exact firstLine_append_newline _ (fun x hx => by
      intro hce; have := hnw x hx; rw [hce] at this; simp at this)

/-- Header extraction for `csv.writer`-shaped text (CRLF separators): the
first line of the stripped text is the header, with a trailing CR when data
follows. -/
theorem firstLine_strip_crlf {hdr : List Char} (rest : List Char)
    (hne : hdr ≠ []) (hnw : ∀ c ∈ hdr, c.isWhitespace = false) :
    firstLineCh (pyStripCh (hdr ++ '\r' :: '\n' :: rest)) = hdr ∨
    firstLineCh (pyStripCh (hdr ++ '\r' :: '\n' :: rest)) = hdr ++ ['\r'] := by
  obtain ⟨c0, t, rfl⟩ : ∃ c0 t, hdr = c0 :: t := by
    cases hdr with
    | nil => exact absurd rfl hne
    | cons a b => exact ⟨a, b, rfl⟩
  have hlead : trimLeadCh ((c0 :: t) ++ '\r' :: '\n' :: rest) = (c0 :: t) ++ '\r' :: '\n' :: rest := by
    rw [List.cons_append]
    exact trimLead_cons _ (hnw c0 (by simp))
  unfold pyStripCh
  rw [hlead]
  by_cases hr : ∀ c ∈ rest, c.isWhitespace = true
  · left
    have hall : ∀ c ∈ '\r' :: '\n' :: rest, c.isWhitespace = true := by
      intro c hc
      rcases List.mem_cons.mp hc with h | h
      · simp [h]
      · rcases List.mem_cons.mp h with h' | h'
        · simp [h']
        · exact hr c h'
    rw [trimTrail_all_ws_append _ hall, trimTrail_nonws hnw]
    exact firstLine_no_newline (fun c hc => by
      intro hce; have := hnw c hc; rw [hce] at this; simp at this)
  · right
    push_neg at hr
    obtain ⟨c, hc, hcw⟩ := hr
    have hwb : c.isWhitespace = false := by
      cases h : c.isWhitespace
      · rfl
      · exact absurd h hcw
    rw [trimTrail_append_nonws _ ⟨c, by simp [hc], hwb⟩]
    have hsep : trimTrailCh ('\r' :: '\n' :: rest) = '\r' :: '\n' :: trimTrailCh rest := by
      have := @trimTrail_append_nonws rest ['\r', '\n'] ⟨c, hc, hwb⟩
      simpa using this
    rw [hsep]
    have : (c0 :: t) ++ '\r' :: '\n' :: trimTrailCh rest
        = ((c0 :: t) ++ ['\r']) ++ '\n' :: trimTrailCh rest := by simp
    rw [this]
    exact firstLine_append_newline _ (fun x hx => by
      rcases List.mem_append.mp hx with h | h
      · intro hce; have := hnw x h; rw [hce] at this; simp at this
      · simp only [List.mem_singleton] at h
        rw [h]; decide)

theorem splitCh_no_sep {c : Char} {l : List Char} (h : c ∉ l) :
    splitChAux c l = [l] := by
  induction l with
  | nil => rfl
  | cons x xs ih =>
    have hx : x ≠ c := fun he => h (by simp [he])
    have ht := ih (fun hm => h (by simp [hm]))
    simp [splitChAux, hx, ht]

theorem splitCh_append_sep {c : Char} {l : List Char} (r : List Char) (h : c ∉ l) :
    splitChAux c (l ++ c :: r) = l :: splitChAux c r := by
  induction l with
  | nil => simp [splitChAux]
  | cons x xs ih =>
    have hx : x ≠ c := fun he => h (by simp [he])
    have ht := ih (fun hm => h (by simp [hm]))
    simp [splitChAux, hx, ht]

theorem splitCh_joinCh {c : Char} {parts : List (List Char)}
    (hne : parts ≠ []) (h : ∀ p ∈ parts, c ∉ p) :
    splitChAux c (joinCh c parts) = parts := by
  induction parts with
  | nil => exact absurd rfl hne
  | cons x xs ih =>
    cases xs with
    | nil => simpa [joinCh] using splitCh_no_sep (h x (by simp))
    | cons y ys =>
      have hx : c ∉ x := h x (by simp)
      have ht := ih (by simp) (fun p hp => h p (by simp [hp]))
      simpa [joinCh] using (splitCh_append_sep _ hx).trans (by rw [ht])

theorem csvField_clean {l : List Char} (h : ∀ c ∈ l, csvSpecial c = false) :
    csvFieldCh l = l := by
  have : l.any csvSpecial = false := by
    simp only [List.any_eq_false]
    intro c hc
    simp [h c hc]
  simp [csvFieldCh, this]

/-- Every character of a `joinCh` is the separator or a character of a part. -/
theorem mem_joinCh {c : Char} {sep : Char} {parts : List (List Char)}
    (h : c ∈ joinCh sep parts) : c = sep ∨ ∃ p ∈ parts, c ∈ p := by
  induction parts with
  | nil => simp [joinCh] at h
  | cons x xs ih =>
    cases xs with
    | nil =>
      simp only [joinCh] at h
      exact Or.inr ⟨x, by simp, h⟩
    | cons y ys =>
      simp only [joinCh, List.mem_append, List.mem_cons] at h
      rcases h with h | h | h
      · exact Or.inr ⟨x, by simp, h⟩
      · exact Or.inl h
      · rcases ih h with h' | ⟨p, hp, hcp⟩
        · exact Or.inl h'
        · exact Or.inr ⟨p, by simp [hp], hcp⟩

/-! ### Cache lemmas and C1 -/

theorem cacheLookup_map_overwrite [DecidableEq K] (m : CacheMap K V) (k : K) (e : CacheEntry V) :
    cacheLookup (List.map (fun p => if p.1 = k then (k, e) else p) m) k
      = (cacheLookup m k).map (fun _ => e) := by
  induction m with
  | nil => rfl
  | cons p t ih =>
    by_cases hp : p.1 = k
    · simp [cacheLookup, List.find?, hp]
    · simpa [cacheLookup, List.find?, hp] using ih

theorem cacheLookup_store [DecidableEq K] (m : CacheMap K V) (k : K) (e : CacheEntry V) :
    cacheLookup (cacheStore m k e) k = some e := by
  unfold cacheStore
  by_cases hf : (List.find? (fun p => decide (p.1 = k)) m).isSome
  · rw [if_pos hf]
    rw [cacheLookup_map_overwrite]
    obtain ⟨q, hq⟩ := Option.isSome_iff_exists.mp hf
    have : cacheLookup m k = some q.2 := by simp [cacheLookup, hq]
    simp [this]
  · rw [if_neg hf]
    simp [cacheLookup, List.find?]

/-- C1: with `ttl_seconds > 0` and no unexpired entry beforehand, two
`cached_call` invocations for the same key (same producer, identical
arguments), the second occurring while `now < expires_at` written by the
first, invoke the producer exactly once: the first call is the single
upstream fetch, and the second returns the stored value with zero upstream
calls. -/
theorem cached_call_second_hit {K V : Type} [DecidableEq K]
    (m : CacheMap K V) (k : K) (producer : Unit → V) (ttl now₁ now₂ : Int)
    (httl : 0 < ttl)
    (hstale : ∀ e, cacheLookup m k = some e → e.expires_at ≤ now₁)
    (hwin : now₂ < now₁ + ttl) :
    (cached_call m k producer ttl now₁).2.2 = 1 ∧
    (cached_call (cached_call m k producer ttl now₁).2.1 k producer ttl now₂).2.2 = 0 ∧
    (cached_call (cached_call m k producer ttl now₁).2.1 k producer ttl now₂).1
      = (cached_call m k producer ttl now₁).1 ∧
    (cached_call m k producer ttl now₁).1 = producer () := by
  have hstore : ∀ v : V,
      cacheLookup (cacheStore m k ⟨v, now₁ + ttl⟩) k = some ⟨v, now₁ + ttl⟩ :=
    fun v => cacheLookup_store m k ⟨v, now₁ + ttl⟩
  cases hcl : cacheLookup m k with
  | none =>
    simp only [cached_call, hcl]
    simp [hstore, hwin]
  | some e =>
    have hle : e.expires_at ≤ now₁ := hstale e hcl
    have hnot : ¬ now₁ < e.expires_at := not_lt.mpr hle
    simp only [cached_call, hcl, if_neg hnot]
    simp [hstore, hwin]

/-- C1 witness: a concrete two-call run on an empty registry. -/
theorem cached_call_second_hit_witness :
    (0 : Int) < 300 ∧
    (∀ e, cacheLookup ([] : CacheMap Nat Nat) 0 = some e → e.expires_at ≤ 0) ∧
    (299 : Int) < 0 + 300 ∧
    ((cached_call ([] : CacheMap Nat Nat) 0 (fun _ => 42) 300 0).2.2 = 1 ∧
     (cached_call (cached_call ([] : CacheMap Nat Nat) 0 (fun _ => 42) 300 0).2.1
        0 (fun _ => 42) 300 299).2.2 = 0 ∧
     (cached_call (cached_call ([] : CacheMap Nat Nat) 0 (fun _ => 42) 300 0).2.1
        0 (fun _ => 42) 300 299).1
       = (cached_call ([] : CacheMap Nat Nat) 0 (fun _ => 42) 300 0).1 ∧
     (cached_call ([] : CacheMap Nat Nat) 0 (fun _ => 42) 300 0).1 = (fun _ : Unit => 42) ()) :=
  ⟨by decide, fun e he => by simp [cacheLookup, List.find?] at he,
   by decide,
   cached_call_second_hit ([] : CacheMap Nat Nat) 0 (fun _ => 42) 300 0 299
     (by decide) (fun e he => by simp [cacheLookup, List.find?] at he) (by decide)⟩

/-! ### C3: empty input yields the Error Contract text -/

/-- C3: for every column map, source, currency, limit and format, both
normalizers return exactly the Error Contract text with `error="empty data"`,
the given source and empty fallback, on an absent (`None`) input or an input
with zero rows. -/
theorem normalize_empty_input_error
    (cm : List (String × String)) (src cur : String) (limit : Int) (fmt : Nat)
    (du : Option String) (im : Option (List (String × String))) (df : DataFrame)
    (hempty : df.empty = true) :
    normalize_price_df none cm src cur limit fmt du im
      = format_error_csv "empty data" src none ∧
    normalize_price_df (some df) cm src cur limit fmt du im
      = format_error_csv "empty data" src none ∧
    normalize_rate_df none cm src cur limit fmt du
      = format_error_csv "empty data" src none ∧
    normalize_rate_df (some df) cm src cur limit fmt du
      = format_error_csv "empty data" src none := by
  refine ⟨rfl, ?_, rfl, ?_⟩
  · simp [normalize_price_df, hempty]
  · simp [normalize_rate_df, hempty]

/-- C3 witness: the error text at a concrete empty table and parameters. -/
theorem normalize_empty_input_error_witness :
    (DataFrame.mk ["date", "close"] []).empty = true ∧
    (normalize_price_df none [("close", "c")] "sge" "CNY" 30 2 none none
       = format_error_csv "empty data" "sge" none ∧
     normalize_price_df (some ⟨["date", "close"], []⟩) [("close", "c")] "sge" "CNY" 30 2 none none
       = format_error_csv "empty data" "sge" none ∧
     normalize_rate_df none [("close", "c")] "sge" "CNY" 30 2 none
       = format_error_csv "empty data" "sge" none ∧
     normalize_rate_df (some ⟨["date", "close"], []⟩) [("close", "c")] "sge" "CNY" 30 2 none
       = format_error_csv "empty data" "sge" none) :=
  ⟨by decide,
   normalize_empty_input_error [("close", "c")] "sge" "CNY" 30 2 none none
     ⟨["date", "close"], []⟩ (by decide)⟩


/-! ### C8: the Error Contract text -/

theorem csvRowCrlf_clean (e s f : String)
    (he : ∀ c ∈ e.data, csvSpecial c = false)
    (hs : ∀ c ∈ s.data, csvSpecial c = false)
    (hf : ∀ c ∈ f.data, csvSpecial c = false) :
    csvRowCrlf [e, s, f]
      = ((e.data ++ ',' :: s.data) ++ ',' :: f.data) ++ ['\r', '\n'] := by
  simp only [csvRowCrlf, List.map, joinCh, csvField_clean he, csvField_clean hs,
    csvField_clean hf]
  simp

theorem trimTrail_row (Y : List Char) (f : String)
    (hft : ∀ c, f.data.getLast? = some c → c.isWhitespace = false) :
    trimTrailCh (Y ++ ',' :: f.data) = Y ++ ',' :: f.data := by
  rw [trimTrail_append_nonws Y ⟨',', by simp, by decide⟩]
  cases hfd : f.data with
  | nil => simp [show trimTrailCh [','] = [','] from by decide]
  | cons x xs =>
    congr 1
    have hne : (x :: xs).getLast? ≠ none := by
      simp [List.getLast?_eq_none_iff]
    obtain ⟨c, hc⟩ := Option.ne_none_iff_exists'.mp hne
    have hcw : c.isWhitespace = false := hft c (by rw [hfd]; exact hc)
    exact trimTrail_last_nonws (l := ',' :: x :: xs)
      (by rw [List.getLast?_cons_cons]; exact hc) hcw

/-- Stripping a two-record CRLF text whose header starts with a
non-whitespace character and whose data row is trim-neutral removes exactly
the final CRLF. -/
theorem pyStrip_two_crlf_rows (c : Char) (t mid : List Char)
    (hc : c.isWhitespace = false)
    (hmid : trimTrailCh mid = mid) (hmidne : mid ≠ []) :
    pyStripCh ((c :: t) ++ ['\r', '\n'] ++ (mid ++ ['\r', '\n']))
      = (c :: t) ++ '\r' :: '\n' :: mid := by
  have hnw : ∃ x ∈ mid, x.isWhitespace = false := by
    by_contra hall
    push_neg at hall
    have hws : ∀ x ∈ mid, x.isWhitespace = true := by
      intro x hx
      cases h : x.isWhitespace
      · exact absurd h (hall x hx)
      · rfl
    have hemp : trimTrailCh mid = [] := by
      have := @trimTrail_all_ws_append mid [] hws
      simpa using this
    rw [hmid] at hemp
    exact hmidne hemp
  unfold pyStripCh
  have h1 : (c :: t) ++ ['\r', '\n'] ++ (mid ++ ['\r', '\n'])
      = c :: (t ++ ['\r', '\n'] ++ (mid ++ ['\r', '\n'])) := by simp
  rw [h1, trimLead_cons _ hc]
  have h2 : c :: (t ++ ['\r', '\n'] ++ (mid ++ ['\r', '\n']))
      = ((c :: t ++ ['\r', '\n']) ++ mid) ++ ['\r', '\n'] := by simp
  rw [h2, trimTrail_all_ws_append _ (by decide),
    trimTrail_append_nonws _ hnw, hmid]
  simp

/-- C8: `format_error_csv` is a pure total function producing exactly the
two-line text: the header `error,source,fallback`, a CRLF, then one data row
with the given values comma-joined, `fallback` defaulting to the empty
string, trailing whitespace trimmed.  (Stated for values free of CSV-special
characters and, for the fallback, free of trailing whitespace, which the
final trim would remove.) -/
theorem format_error_csv_spec (e s f : String)
    (he : ∀ c ∈ e.data, csvSpecial c = false)
    (hs : ∀ c ∈ s.data, csvSpecial c = false)
    (hf : ∀ c ∈ f.data, csvSpecial c = false)
    (hft : ∀ c, f.data.getLast? = some c → c.isWhitespace = false) :
    format_error_csv e s (some f)
      = ⟨"error,source,fallback".data ++ '\r' :: '\n' ::
          ((e.data ++ ',' :: s.data) ++ ',' :: f.data)⟩ ∧
    format_error_csv e s none
      = ⟨"error,source,fallback".data ++ '\r' :: '\n' ::
          ((e.data ++ ',' :: s.data) ++ [','])⟩ := by
  have hhdr : csvRowCrlf ERROR_COLUMNS
      = ('e' :: "rror,source,fallback".data) ++ ['\r', '\n'] := by decide
  constructor
  · unfold format_error_csv
    congr 1
    rw [show (some f).getD "" = f from rfl, csvRowCrlf_clean e s f he hs hf, hhdr,
      pyStrip_two_crlf_rows 'e' _ _ (by decide)
        (trimTrail_row _ f hft) (by simp)]
  · unfold format_error_csv
    congr 1
    have hfe : ∀ c ∈ ("" : String).data, csvSpecial c = false := by simp
    have hfte : ∀ c, ("" : String).data.getLast? = some c → c.isWhitespace = false := by
      intro c hc
      simp at hc
    rw [show (none : Option String).getD "" = "" from rfl,
      csvRowCrlf_clean e s "" he hs hfe, hhdr,
      pyStrip_two_crlf_rows 'e' _ _ (by decide)
        (trimTrail_row _ "" hfte) (by simp)]

/-- C8 witness: the contract at concrete values. -/
theorem format_error_csv_spec_witness :
    ((∀ c ∈ ("empty data" : String).data, csvSpecial c = false) ∧
     (∀ c ∈ ("sge" : String).data, csvSpecial c = false) ∧
     (∀ c ∈ ("try later" : String).data, csvSpecial c = false) ∧
     (∀ c, ("try later" : String).data.getLast? = some c → c.isWhitespace = false)) ∧
    (format_error_csv "empty data" "sge" (some "try later")
       = ⟨"error,source,fallback".data ++ '\r' :: '\n' ::
           ((("empty data" : String).data ++ ',' :: ("sge" : String).data)
             ++ ',' :: ("try later" : String).data)⟩ ∧
     format_error_csv "empty data" "sge" none
       = ⟨"error,source,fallback".data ++ '\r' :: '\n' ::
           ((("empty data" : String).data ++ ',' :: ("sge" : String).data) ++ [','])⟩) :=
  ⟨⟨by decide, by decide, by decide, by decide⟩,
   format_error_csv_spec "empty data" "sge" "try later"
     (by decide) (by decide) (by decide) (by decide)⟩

/-! ### Header extraction for normalizer outputs -/

theorem mk_data_eq (s : String) : (⟨s.data⟩ : String) = s := rfl

/-- The column names of the fixed schemas are nonempty, whitespace-free and
CSV-special-free. -/
abbrev cleanColName (n : String) : Prop :=
  n.data ≠ [] ∧ ∀ c ∈ n.data, c.isWhitespace = false ∧ csvSpecial c = false

theorem schema_names_clean :
    ∀ n ∈ PRICE_COLUMNS ++ INDICATOR_COLUMNS ++ RATE_COLUMNS, cleanColName n := by
  decide

theorem joinCh_ne_nil {cols : List String} (hne : cols ≠ [])
    (hcl : ∀ n ∈ cols, cleanColName n) :
    joinCh ',' (cols.map (fun n => n.data)) ≠ [] := by
  cases cols with
  | nil => exact absurd rfl hne
  | cons n rest =>
    cases rest with
    | nil =>
      simpa [joinCh] using (hcl n (by simp)).1
    | cons y ys => simp [joinCh]

theorem headerCols_strip_toCsv (cols : List String) (d : Nat) (df : DataFrame)
    (hne : cols ≠ []) (hcl : ∀ n ∈ cols, cleanColName n) :
    headerCols ⟨pyStripCh (toCsvCh cols d df)⟩ = cols := by
  have hmapclean : cols.map (fun n => csvFieldCh n.data) = cols.map (fun n => n.data) :=
    List.map_congr_left (fun n hn => csvField_clean (fun c hc => ((hcl n hn).2 c hc).2))
  have hnw : ∀ c ∈ joinCh ',' (cols.map (fun n => n.data)), c.isWhitespace = false := by
    intro c hc
    rcases mem_joinCh hc with h | ⟨p, hp, hcp⟩
    · rw [h]; decide
    · obtain ⟨n, hn, rfl⟩ := List.mem_map.mp hp
      exact ((hcl n hn).2 c hcp).1
  have hhne : joinCh ',' (cols.map (fun n => n.data)) ≠ [] := joinCh_ne_nil hne hcl
  simp only [headerCols, toCsvCh, hmapclean]
  have hfl : firstLineCh (pyStripCh (unlinesCh (joinCh ',' (cols.map (fun n => n.data)) ::
      df.rows.map (fun r => joinCh ','
        ((cols.zip (cols.map (fun c => colDatesOnly (getCol df c)))).map
          (fun p => renderCell d p.2 (cellAt df r p.1)))))))
      = joinCh ',' (cols.map (fun n => n.data)) := by
    simp only [unlinesCh]
    exact firstLine_strip_unlines _ hhne hnw
  rw [hfl]
  rw [splitCh_joinCh (by simp [hne]) ?hsep]
  case hsep =>
    intro p hp
    obtain ⟨n, hn, rfl⟩ := List.mem_map.mp hp
    intro hcomma
    have := ((hcl n hn).2 ',' hcomma).2
    simp [csvSpecial] at this
  rw [List.map_map]
  exact List.map_congr_left (fun n _ => mk_data_eq n) |>.trans (List.map_id cols)

/-- The header columns of any Error Contract text: the fixed error schema,
with a stray CR glued to the last name when a data row follows the strip. -/
theorem headerCols_format_error_csv (e s : String) (fb : Option String) :
    headerCols (format_error_csv e s fb) = ["error", "source", "fallback"] ∨
    headerCols (format_error_csv e s fb) = ["error", "source", "fallback\r"] := by
  have hsplit : csvRowCrlf ERROR_COLUMNS ++ csvRowCrlf [e, s, fb.getD ""]
      = "error,source,fallback".data ++ '\r' :: '\n' :: csvRowCrlf [e, s, fb.getD ""] := by
    rw [show csvRowCrlf ERROR_COLUMNS
        = "error,source,fallback".data ++ ['\r', '\n'] from by decide]
    simp
  have hne : ("error,source,fallback".data : List Char) ≠ [] := by decide
  have hnw : ∀ c ∈ ("error,source,fallback".data : List Char), c.isWhitespace = false := by
    decide
  unfold format_error_csv
  rw [hsplit]
  rcases @firstLine_strip_crlf "error,source,fallback".data
      (csvRowCrlf [e, s, fb.getD ""]) hne hnw with h | h
  · left
    simp only [headerCols]
    rw [h]
    decide
  · right
    simp only [headerCols]
    rw [h]
    decide

theorem price_columns_clean (tl : DataFrame) :
    ∀ n ∈ PRICE_COLUMNS ++ INDICATOR_COLUMNS.filter (fun c => c ∈ tl.header),
      cleanColName n := by
  intro n hn
  rcases List.mem_append.mp hn with h | h
  · exact schema_names_clean n (by simp [h])
  · exact schema_names_clean n (by simp [(List.mem_filter.mp h).1])

/-- On a non-empty input the price normalizer's output header is exactly the
fixed price schema followed by the indicator columns present in the frame. -/
theorem price_success_headerCols (df : DataFrame) (cm : List (String × String))
    (src cur : String) (limit : Int) (fmt : Nat) (du : Option String)
    (im : Option (List (String × String))) (hemp : df.empty = false) :
    headerCols (normalize_price_df (some df) cm src cur limit fmt du im)
      = PRICE_COLUMNS ++ INDICATOR_COLUMNS.filter
          (fun c => c ∈ (priceTail df cm src cur limit du im).header) := by
  simp only [normalize_price_df, hemp, Bool.false_eq_true, if_false]
  exact headerCols_strip_toCsv _ fmt _ (by simp [PRICE_COLUMNS])
    (price_columns_clean _)

/-- On a non-empty input the rate normalizer's output header is exactly the
fixed rate schema. -/
theorem rate_success_headerCols (df : DataFrame) (cm : List (String × String))
    (src cur : String) (limit : Int) (fmt : Nat) (du : Option String)
    (hemp : df.empty = false) :
    headerCols (normalize_rate_df (some df) cm src cur limit fmt du)
      = RATE_COLUMNS := by
  simp only [normalize_rate_df, hemp, Bool.false_eq_true, if_false]
  exact headerCols_strip_toCsv _ fmt _ (by simp [RATE_COLUMNS])
    (fun n hn => schema_names_clean n
      (by simp [RATE_COLUMNS] at hn; rcases hn with rfl | rfl | rfl | rfl <;> decide))

theorem error_header_no_close_rate (e s : String) (fb : Option String) :
    "close" ∉ headerCols (format_error_csv e s fb) ∧
    "rate" ∉ headerCols (format_error_csv e s fb) := by
  rcases headerCols_format_error_csv e s fb with h | h <;> rw [h] <;>
    exact ⟨by decide, by decide⟩

/-! ### C2: error/success mutual exclusivity -/

/-- C2: no output text of `normalize_price_df` or `normalize_rate_df` ever
carries both an `error` header column and a `close` or `rate` header column:
the error branch's header has no `close`/`rate`, and the success branches'
headers (fixed schema plus present indicators) have no `error`. -/
theorem error_success_mutually_exclusive (df : Option DataFrame)
    (cm : List (String × String)) (src cur : String) (limit : Int) (fmt : Nat)
    (du : Option String) (im : Option (List (String × String))) :
    ¬ ("error" ∈ headerCols (normalize_price_df df cm src cur limit fmt du im) ∧
       ("close" ∈ headerCols (normalize_price_df df cm src cur limit fmt du im) ∨
        "rate" ∈ headerCols (normalize_price_df df cm src cur limit fmt du im))) ∧
    ¬ ("error" ∈ headerCols (normalize_rate_df df cm src cur limit fmt du) ∧
       ("close" ∈ headerCols (normalize_rate_df df cm src cur limit fmt du) ∨
        "rate" ∈ headerCols (normalize_rate_df df cm src cur limit fmt du))) := by
  constructor
  · cases df with
    | none =>
      rintro ⟨-, hcr⟩
      have := error_header_no_close_rate "empty data" src none
      rcases hcr with h | h
      · exact this.1 h
      · exact this.2 h
    | some d =>
      by_cases hemp : d.empty
      · rintro ⟨-, hcr⟩
        have hred : normalize_price_df (some d) cm src cur limit fmt du im
            = format_error_csv "empty data" src none := by
          simp [normalize_price_df, hemp]
        rw [hred] at hcr
        have := error_header_no_close_rate "empty data" src none
        rcases hcr with h | h
        · exact this.1 h
        · exact this.2 h
      · rintro ⟨herr, -⟩
        rw [price_success_headerCols d cm src cur limit fmt du im
          (Bool.not_eq_true _ ▸ hemp : d.empty = false)] at herr
        rcases List.mem_append.mp herr with h | h
        · simp [PRICE_COLUMNS] at h
        · have := (List.mem_filter.mp h).1
          simp [INDICATOR_COLUMNS] at this
  · cases df with
    | none =>
      rintro ⟨-, hcr⟩
      have := error_header_no_close_rate "empty data" src none
      rcases hcr with h | h
      · exact this.1 h
      · exact this.2 h
    | some d =>
      by_cases hemp : d.empty
      · rintro ⟨-, hcr⟩
        have hred : normalize_rate_df (some d) cm src cur limit fmt du
            = format_error_csv "empty data" src none := by
          simp [normalize_rate_df, hemp]
        rw [hred] at hcr
        have := error_header_no_close_rate "empty data" src none
        rcases hcr with h | h
        · exact this.1 h
        · exact this.2 h
      · rintro ⟨herr, -⟩
        rw [rate_success_headerCols d cm src cur limit fmt du
          (Bool.not_eq_true _ ▸ hemp : d.empty = false)] at herr
        simp [RATE_COLUMNS] at herr

/-! ### C10: `limit = 0` yields a header-only text, not the error record -/

theorem pyStrip_header_newline {hdr : List Char} (hne : hdr ≠ [])
    (hnw : ∀ c ∈ hdr, c.isWhitespace = false) :
    pyStripCh (hdr ++ ['\n']) = hdr := by
  obtain ⟨c0, t, rfl⟩ : ∃ c0 t, hdr = c0 :: t := by
    cases hdr with
    | nil => exact absurd rfl hne
    | cons a b => exact ⟨a, b, rfl⟩
  unfold pyStripCh
  rw [List.cons_append, trimLead_cons _ (hnw c0 (by simp))]
  rw [show c0 :: (t ++ ['\n']) = (c0 :: t) ++ ['\n'] from rfl,
    trimTrail_all_ws_append _ (by decide)]
  exact trimTrail_nonws hnw

theorem toCsv_header_only (cols : List String) (d : Nat) (hh : List String)
    (hne : cols ≠ []) (hcl : ∀ n ∈ cols, cleanColName n) :
    (⟨pyStripCh (toCsvCh cols d ⟨hh, []⟩)⟩ : String)
      = ⟨joinCh ',' (cols.map (fun n => n.data))⟩ := by
  have hmapclean : cols.map (fun n => csvFieldCh n.data) = cols.map (fun n => n.data) :=
    List.map_congr_left (fun n hn => csvField_clean (fun c hc => ((hcl n hn).2 c hc).2))
  have hnw : ∀ c ∈ joinCh ',' (cols.map (fun n => n.data)), c.isWhitespace = false := by
    intro c hc
    rcases mem_joinCh hc with h | ⟨p, hp, hcp⟩
    · rw [h]; decide
    · obtain ⟨n, hn, rfl⟩ := List.mem_map.mp hp
      exact ((hcl n hn).2 c hcp).1
  simp only [toCsvCh, hmapclean, List.map_nil, unlinesCh]
  congr 1
  exact pyStrip_header_newline (joinCh_ne_nil hne hcl) hnw

theorem header_no_newline (cols : List String) (hcl : ∀ n ∈ cols, cleanColName n) :
    ∀ c ∈ joinCh ',' (cols.map (fun n => n.data)), c ≠ '\n' := by
  intro c hc hceq
  rcases mem_joinCh hc with h | ⟨p, hp, hcp⟩
  · rw [hceq] at h; exact absurd h (by decide)
  · obtain ⟨n, hn, rfl⟩ := List.mem_map.mp hp
    have := ((hcl n hn).2 c hcp).1
    rw [hceq] at this
    simp at this

/-- C10: on a non-empty input with `limit = 0`, both normalizers return a
header-only text — the fixed schema column names, zero data rows (the output
has no newline at all), distinct from the "empty data" error record: the
empty-input check looks at the input, never at the truncated output. -/
theorem limit_zero_header_only (df : DataFrame) (cm : List (String × String))
    (src cur : String) (fmt : Nat) (du : Option String)
    (im : Option (List (String × String))) (hemp : df.empty = false) :
    (priceTail df cm src cur 0 du im).rows = [] ∧
    normalize_price_df (some df) cm src cur 0 fmt du im
      = ⟨joinCh ',' ((PRICE_COLUMNS ++ INDICATOR_COLUMNS.filter
          (fun c => c ∈ (priceTail df cm src cur 0 du im).header)).map (fun n => n.data))⟩ ∧
    (∀ c ∈ (normalize_price_df (some df) cm src cur 0 fmt du im).data, c ≠ '\n') ∧
    normalize_price_df (some df) cm src cur 0 fmt du im
      ≠ format_error_csv "empty data" src none ∧
    (rateTail df cm src cur 0 du).rows = [] ∧
    normalize_rate_df (some df) cm src cur 0 fmt du
      = ⟨joinCh ',' (RATE_COLUMNS.map (fun n => n.data))⟩ ∧
    normalize_rate_df (some df) cm src cur 0 fmt du
      ≠ format_error_csv "empty data" src none := by
  have hprows : (priceTail df cm src cur 0 du im).rows = [] := by
    simp [priceTail, pdTail]
  have hrrows : (rateTail df cm src cur 0 du).rows = [] := by
    simp [rateTail, pdTail]
  have hptail : priceTail df cm src cur 0 du im
      = ⟨(pricePipeline df cm src cur du im).header, []⟩ := by
    simp [priceTail, pdTail]
  have hrtail : rateTail df cm src cur 0 du
      = ⟨(ratePipeline df cm src cur du).header, []⟩ := by
    simp [rateTail, pdTail]
  have hpcl := price_columns_clean (priceTail df cm src cur 0 du im)
  have hrcl : ∀ n ∈ RATE_COLUMNS, cleanColName n := fun n hn =>
    schema_names_clean n
      (by simp [RATE_COLUMNS] at hn; rcases hn with rfl | rfl | rfl | rfl <;> decide)
  have hpeq : normalize_price_df (some df) cm src cur 0 fmt du im
      = ⟨joinCh ',' ((PRICE_COLUMNS ++ INDICATOR_COLUMNS.filter
          (fun c => c ∈ (priceTail df cm src cur 0 du im).header)).map (fun n => n.data))⟩ := by
    simp only [normalize_price_df, hemp, Bool.false_eq_true, if_false]
    rw [show (priceTail df cm src cur 0 du im)
        = ⟨(pricePipeline df cm src cur du im).header, []⟩ from hptail]
    exact toCsv_header_only _ fmt _ (by simp [PRICE_COLUMNS])
      (by rw [← hptail]; exact hpcl)
  have hreq : normalize_rate_df (some df) cm src cur 0 fmt du
      = ⟨joinCh ',' (RATE_COLUMNS.map (fun n => n.data))⟩ := by
    simp only [normalize_rate_df, hemp, Bool.false_eq_true, if_false]
    rw [show (rateTail df cm src cur 0 du)
        = ⟨(ratePipeline df cm src cur du).header, []⟩ from hrtail]
    exact toCsv_header_only _ fmt _ (by simp [RATE_COLUMNS]) hrcl
  have hpnl : ∀ c ∈ (normalize_price_df (some df) cm src cur 0 fmt du im).data, c ≠ '\n' := by
    rw [hpeq]
    exact header_no_newline _ (by rw [hptail] at hpcl ⊢; exact hpcl)
  refine ⟨hprows, hpeq, hpnl, ?_, hrrows, hreq, ?_⟩
  · intro habs
    have h1 : headerCols (normalize_price_df (some df) cm src cur 0 fmt du im)
        = PRICE_COLUMNS ++ INDICATOR_COLUMNS.filter
            (fun c => c ∈ (priceTail df cm src cur 0 du im).header) :=
      price_success_headerCols df cm src cur 0 fmt du im hemp
    rw [habs] at h1
    rcases headerCols_format_error_csv "empty data" src none with h2 | h2 <;>
      rw [h2] at h1
    · have : "error" ∈ PRICE_COLUMNS ++ INDICATOR_COLUMNS.filter
          (fun c => c ∈ (priceTail df cm src cur 0 du im).header) := by
        rw [← h1]; simp
      rcases List.mem_append.mp this with h | h
      · simp [PRICE_COLUMNS] at h
      · have := (List.mem_filter.mp h).1
        simp [INDICATOR_COLUMNS] at this
    · have : "error" ∈ PRICE_COLUMNS ++ INDICATOR_COLUMNS.filter
          (fun c => c ∈ (priceTail df cm src cur 0 du im).header) := by
        rw [← h1]; simp
      rcases List.mem_append.mp this with h | h
      · simp [PRICE_COLUMNS] at h
      · have := (List.mem_filter.mp h).1
        simp [INDICATOR_COLUMNS] at this
  · intro habs
    have h1 : headerCols (normalize_rate_df (some df) cm src cur 0 fmt du)
        = RATE_COLUMNS :=
      rate_success_headerCols df cm src cur 0 fmt du hemp
    rw [habs] at h1
    rcases headerCols_format_error_csv "empty data" src none with h2 | h2 <;>
      rw [h2] at h1 <;> simp [RATE_COLUMNS] at h1

/-- C10 witness: a concrete one-row table with `limit = 0`. -/
theorem limit_zero_header_only_witness :
    (DataFrame.mk ["t"] [[Cell.int 1]]).empty = false ∧
    ((priceTail ⟨["t"], [[Cell.int 1]]⟩ [] "s" "c" 0 none none).rows = [] ∧
     normalize_price_df (some ⟨["t"], [[Cell.int 1]]⟩) [] "s" "c" 0 2 none none
       = ⟨joinCh ',' ((PRICE_COLUMNS ++ INDICATOR_COLUMNS.filter
           (fun c => c ∈ (priceTail ⟨["t"], [[Cell.int 1]]⟩ [] "s" "c" 0 none none).header)).map
             (fun n => n.data))⟩ ∧
     (∀ c ∈ (normalize_price_df (some ⟨["t"], [[Cell.int 1]]⟩) [] "s" "c" 0 2 none none).data,
        c ≠ '\n') ∧
     normalize_price_df (some ⟨["t"], [[Cell.int 1]]⟩) [] "s" "c" 0 2 none none
       ≠ format_error_csv "empty data" "s" none ∧
     (rateTail ⟨["t"], [[Cell.int 1]]⟩ [] "s" "c" 0 none).rows = [] ∧
     normalize_rate_df (some ⟨["t"], [[Cell.int 1]]⟩) [] "s" "c" 0 2 none
       = ⟨joinCh ',' (RATE_COLUMNS.map (fun n => n.data))⟩ ∧
     normalize_rate_df (some ⟨["t"], [[Cell.int 1]]⟩) [] "s" "c" 0 2 none
       ≠ format_error_csv "empty data" "s" none) :=
  ⟨by decide,
   limit_zero_header_only ⟨["t"], [[Cell.int 1]]⟩ [] "s" "c" 2 none none (by decide)⟩

/-! ### Column-index and column-access lemmas -/

theorem colIdx_isSome_iff {c : String} {l : List String} :
    (colIdxAux c l).isSome ↔ c ∈ l := by
  induction l with
  | nil => simp [colIdxAux]
  | cons h t ih =>
    by_cases hh : h = c
    · simp [colIdxAux, hh]
    · simp [colIdxAux, hh, ih, Ne.symm hh]

theorem colIdx_lt_length {c : String} {l : List String} {i : Nat}
    (h : colIdxAux c l = some i) : i < l.length := by
  induction l generalizing i with
  | nil => simp [colIdxAux] at h
  | cons x t ih =>
    by_cases hx : x = c
    · rw [colIdxAux, if_pos hx] at h
      injection h with h
      subst h
      simp
    · rw [colIdxAux, if_neg hx] at h
      rcases hm : colIdxAux c t with _ | j
      · rw [hm] at h; simp [Option.map] at h
      · rw [hm] at h
        simp [Option.map] at h
        subst h
        have := ih hm
        simp only [List.length_cons]
        omega

theorem colIdx_getElem {c : String} {l : List String} {i : Nat}
    (h : colIdxAux c l = some i) : l[i]? = some c := by
  induction l generalizing i with
  | nil => simp [colIdxAux] at h
  | cons x t ih =>
    by_cases hx : x = c
    · rw [colIdxAux, if_pos hx] at h
      injection h with h
      subst h
      simp [hx]
    · rw [colIdxAux, if_neg hx] at h
      rcases hm : colIdxAux c t with _ | j
      · rw [hm] at h; simp [Option.map] at h
      · rw [hm] at h
        simp [Option.map] at h
        subst h
        simpa using ih hm

theorem colIdx_append_left {c : String} {l : List String} {i : Nat} (l' : List String)
    (h : colIdxAux c l = some i) : colIdxAux c (l ++ l') = some i := by
  induction l generalizing i with
  | nil => simp [colIdxAux] at h
  | cons x t ih =>
    by_cases hx : x = c
    · rw [colIdxAux, if_pos hx] at h
      rw [List.cons_append, colIdxAux, if_pos hx]
      exact h
    · rw [colIdxAux, if_neg hx] at h
      rcases hm : colIdxAux c t with _ | j
      · rw [hm] at h; simp [Option.map] at h
      · rw [hm] at h
        simp [Option.map] at h
        subst h
        rw [List.cons_append, colIdxAux, if_neg hx, ih hm]; rfl

theorem getCol_length {df : DataFrame} {c : String} (h : c ∈ df.header) :
    (getCol df c).length = df.rows.length := by
  obtain ⟨i, hi⟩ := Option.isSome_iff_exists.mp (colIdx_isSome_iff.mpr h)
  simp [getCol, colIdx?, hi]

theorem getCol_not_mem {df : DataFrame} {c : String} (h : c ∉ df.header) :
    getCol df c = [] := by
  have : colIdxAux c df.header = none := by
    cases hs : colIdxAux c df.header with
    | none => rfl
    | some i => exact absurd (colIdx_isSome_iff.mp (by simp [hs])) h
  simp [getCol, colIdx?, this]

/-- Setting one column by scalar leaves every other existing column's cells
unchanged. -/
theorem getCol_setColScalar_ne {df : DataFrame} {c c' : String} (v : Cell)
    (hne : c ≠ c') (hc' : c' ∈ df.header) :
    getCol (setColScalar df c' v) c = getCol df c := by
  obtain ⟨i, hi⟩ := Option.isSome_iff_exists.mp (colIdx_isSome_iff.mpr hc')
  simp only [setColScalar, colIdx?, hi]
  cases hcs : colIdxAux c df.header with
  | none =>
    simp [getCol, colIdx?, hcs]
  | some j =>
    have hij : i ≠ j := by
      intro he
      subst he
      have h1 := colIdx_getElem hi
      have h2 := colIdx_getElem hcs
      rw [h1] at h2
      exact hne (by injection h2 with h; exact h.symm) 
    simp only [getCol, colIdx?, hcs, List.map_map]
    apply List.map_congr_left
    intro r hr
    simp only [Function.comp_apply, List.getD_eq_getElem?_getD,
      List.getElem?_set_ne hij]

/-- Every column listed in `_ensure_columns` is present afterwards. -/
theorem ensure_columns_mem {df : DataFrame} {cols : List String} {c : String}
    (h : c ∈ df.header ∨ c ∈ cols) :
    c ∈ (ensure_columns df cols).header := by
  induction cols generalizing df with
  | nil =>
    rcases h with h | h
    · exact h
    · simp at h
  | cons x t ih =>
    simp only [ensure_columns, List.foldl_cons]
    by_cases hx : x ∈ df.header
    · rw [if_pos hx]
      rcases h with h | h
      · exact ih (Or.inl h)
      · rcases List.mem_cons.mp h with rfl | h
        · exact ih (Or.inl hx)
        · exact ih (Or.inr h)
    · rw [if_neg hx]
      rcases h with h | h
      · exact ih (Or.inl (by simp [h]))
      · rcases List.mem_cons.mp h with rfl | h
        · exact ih (Or.inl (by simp))
        · exact ih (Or.inr h)

/-! ### Sorting lemmas -/

theorem insertRow_length (le : α → α → Bool) (x : α) (l : List α) :
    (insertRow le x l).length = l.length + 1 := by
  induction l with
  | nil => rfl
  | cons y ys ih =>
    by_cases h : le x y
    · simp [insertRow, h]
    · simp [insertRow, h, ih]

theorem sortRows_length (le : α → α → Bool) (l : List α) :
    (sortRows le l).length = l.length := by
  induction l with
  | nil => rfl
  | cons x xs ih => simp [sortRows, insertRow_length, ih]

theorem insertRow_perm (le : α → α → Bool) (x : α) (l : List α) :
    (insertRow le x l).Perm (x :: l) := by
  induction l with
  | nil => exact List.Perm.refl _
  | cons y ys ih =>
    by_cases h : le x y
    · simp [insertRow, h]
    · simp only [insertRow, h, Bool.false_eq_true, if_false]
      exact (List.Perm.cons y ih).trans (List.Perm.swap x y ys)

theorem sortRows_perm (le : α → α → Bool) (l : List α) :
    (sortRows le l).Perm l := by
  induction l with
  | nil => exact List.Perm.refl _
  | cons x xs ih =>
    exact (insertRow_perm le x (sortRows le xs)).trans (List.Perm.cons x ih)

theorem mem_insertRow {le : α → α → Bool} {x a : α} {l : List α} :
    a ∈ insertRow le x l ↔ a = x ∨ a ∈ l :=
  ⟨fun h => by simpa using (insertRow_perm le x l).mem_iff.mp h,
   fun h => (insertRow_perm le x l).mem_iff.mpr (by simpa using h)⟩

theorem insertRow_sorted {le : α → α → Bool}
    (htrans : ∀ a b c, le a b = true → le b c = true → le a c = true)
    (htot : ∀ a b, le a b = true ∨ le b a = true) {x : α} {l : List α}
    (hs : l.Pairwise (fun a b => le a b = true)) :
    (insertRow le x l).Pairwise (fun a b => le a b = true) := by
  induction l with
  | nil => simp [insertRow]
  | cons y ys ih =>
    rcases List.pairwise_cons.mp hs with ⟨hy, hys⟩
    by_cases h : le x y
    · simp only [insertRow, h, if_true]
      refine List.pairwise_cons.mpr ⟨?_, hs⟩
      intro b hb
      rcases List.mem_cons.mp hb with rfl | hb
      · exact h
      · exact htrans x y b h (hy b hb)
    · simp only [insertRow, h, Bool.false_eq_true, if_false]
      refine List.pairwise_cons.mpr ⟨?_, ih hys⟩
      intro b hb
      rcases mem_insertRow.mp hb with rfl | hb
      · rcases htot b y with h' | h'
        · exact absurd h' h
        · exact h'
      · exact hy b hb

theorem sortRows_sorted {le : α → α → Bool}
    (htrans : ∀ a b c, le a b = true → le b c = true → le a c = true)
    (htot : ∀ a b, le a b = true ∨ le b a = true) (l : List α) :
    (sortRows le l).Pairwise (fun a b => le a b = true) := by
  induction l with
  | nil => simp [sortRows]
  | cons x xs ih => exact insertRow_sorted htrans htot ih

/-! ### Structural lemmas for the DataFrame operations -/

theorem toNumericCol_length (vals : List Cell) :
    (toNumericCol vals).length = vals.length := by
  unfold toNumericCol
  by_cases h : vals.all (fun c => (cellIntRepr c).isSome)
  · simp [h]
  · simp [h]

theorem setCol_rows_length {df : DataFrame} {c : String} {vals : List Cell}
    (hv : vals.length = df.rows.length) :
    (setCol df c vals).rows.length = df.rows.length := by
  unfold setCol
  cases colIdx? df c <;> simp [List.length_zip, hv]

theorem setCol_header_of_mem {df : DataFrame} {c : String} (vals : List Cell)
    (h : c ∈ df.header) : (setCol df c vals).header = df.header := by
  obtain ⟨i, hi⟩ := Option.isSome_iff_exists.mp (colIdx_isSome_iff.mpr h)
  simp [setCol, colIdx?, hi]

theorem setColScalar_rows_length (df : DataFrame) (c : String) (v : Cell) :
    (setColScalar df c v).rows.length = df.rows.length := by
  unfold setColScalar
  cases colIdx? df c <;> simp

theorem setColScalar_header_of_mem {df : DataFrame} {c : String} (v : Cell)
    (h : c ∈ df.header) : (setColScalar df c v).header = df.header := by
  obtain ⟨i, hi⟩ := Option.isSome_iff_exists.mp (colIdx_isSome_iff.mpr h)
  simp [setColScalar, colIdx?, hi]

theorem applyColumnMap_rows (m : List (String × String)) (df : DataFrame) :
    (applyColumnMap m df).rows = df.rows := by
  induction m generalizing df with
  | nil => rfl
  | cons p t ih =>
    simp only [applyColumnMap, List.foldl_cons]
    by_cases hp : p.2 ∈ df.header
    · rw [if_pos hp]
      exact ih (renameCol p.2 p.1 df)
    · rw [if_neg hp]
      exact ih df

theorem applyColumnMap_header_length (m : List (String × String)) (df : DataFrame) :
    (applyColumnMap m df).header.length = df.header.length := by
  induction m generalizing df with
  | nil => rfl
  | cons p t ih =>
    simp only [applyColumnMap, List.foldl_cons]
    by_cases hp : p.2 ∈ df.header
    · rw [if_pos hp]
      have := ih (renameCol p.2 p.1 df)
      simpa [renameCol] using this
    · rw [if_neg hp]
      exact ih df

theorem WF_applyColumnMap {m : List (String × String)} {df : DataFrame}
    (hwf : df.WF) : (applyColumnMap m df).WF := by
  intro r hr
  rw [applyColumnMap_rows] at hr
  rw [applyColumnMap_header_length]
  exact hwf r hr

theorem sortByDate_header (df : DataFrame) : (sortByDate df).header = df.header := by
  unfold sortByDate
  cases colIdx? df "date" <;> rfl

theorem sortByDate_rows_perm (df : DataFrame) : (sortByDate df).rows.Perm df.rows := by
  unfold sortByDate
  cases colIdx? df "date" with
  | none => exact List.Perm.refl _
  | some i => exact sortRows_perm _ _

theorem WF_sortByDate {df : DataFrame} (hwf : df.WF) : (sortByDate df).WF := by
  intro r hr
  rw [sortByDate_header]
  exact hwf r ((sortByDate_rows_perm df).mem_iff.mp hr)

theorem WF_setCol {df : DataFrame} {c : String} {vals : List Cell}
    (hwf : df.WF) (hv : vals.length = df.rows.length) : (setCol df c vals).WF := by
  unfold setCol
  cases hidx : colIdx? df c with
  | some i =>
    intro r hr
    simp only [List.mem_map] at hr
    obtain ⟨p, hp, rfl⟩ := hr
    have hmem := List.of_mem_zip hp
    simp only [List.length_set]
    exact hwf p.1 hmem.1
  | none =>
    intro r hr
    simp only [List.mem_map] at hr
    obtain ⟨p, hp, rfl⟩ := hr
    have hmem := List.of_mem_zip hp
    simp only [List.length_append, List.length_cons, List.length_nil]
    rw [hwf p.1 hmem.1]

theorem WF_setColScalar {df : DataFrame} {c : String} {v : Cell}
    (hwf : df.WF) : (setColScalar df c v).WF := by
  unfold setColScalar
  cases hidx : colIdx? df c with
  | some i =>
    intro r hr
    simp only [List.mem_map] at hr
    obtain ⟨q, hq, rfl⟩ := hr
    simpa using hwf q hq
  | none =>
    intro r hr
    simp only [List.mem_map] at hr
    obtain ⟨q, hq, rfl⟩ := hr
    simp only [List.length_append, List.length_cons, List.length_nil]
    rw [hwf q hq]

theorem convertDate_rows_length (du : Option String) (df : DataFrame) :
    (convertDate du df).rows.length = df.rows.length := by
  unfold convertDate
  by_cases h : "date" ∈ df.header
  · rw [if_pos h]
    have h1 : ((getCol df "date").map (toDatetimeCell du)).length = df.rows.length := by
      simp [getCol_length h]
    calc (sortByDate (setCol df "date" ((getCol df "date").map (toDatetimeCell du)))).rows.length
        = (setCol df "date" ((getCol df "date").map (toDatetimeCell du))).rows.length :=
          (sortByDate_rows_perm _).length_eq
      _ = df.rows.length := setCol_rows_length h1
  · rw [if_neg h]

theorem convertDate_header (du : Option String) (df : DataFrame) :
    (convertDate du df).header = df.header := by
  unfold convertDate
  by_cases h : "date" ∈ df.header
  · rw [if_pos h, sortByDate_header, setCol_header_of_mem _ h]
  · rw [if_neg h]

theorem WF_convertDate {du : Option String} {df : DataFrame}
    (hwf : df.WF) : (convertDate du df).WF := by
  unfold convertDate
  by_cases h : "date" ∈ df.header
  · rw [if_pos h]
    exact WF_sortByDate (WF_setCol hwf (by simp [getCol_length h]))
  · rw [if_neg h]
    exact hwf

theorem coerceNumericCols_rows_length (cols : List String) (df : DataFrame) :
    (coerceNumericCols cols df).rows.length = df.rows.length := by
  induction cols generalizing df with
  | nil => rfl
  | cons c t ih =>
    simp only [coerceNumericCols, List.foldl_cons]
    by_cases hc : c ∈ df.header
    · rw [if_pos hc]
      have := ih (setCol df c (toNumericCol (getCol df c)))
      rw [show coerceNumericCols t (setCol df c (toNumericCol (getCol df c)))
          = List.foldl _ (setCol df c (toNumericCol (getCol df c))) t from rfl] at this
      rw [this, setCol_rows_length (by simp [toNumericCol_length, getCol_length hc])]
    · rw [if_neg hc]
      exact ih df

theorem coerceNumericCols_header (cols : List String) (df : DataFrame) :
    (coerceNumericCols cols df).header = df.header := by
  induction cols generalizing df with
  | nil => rfl
  | cons c t ih =>
    simp only [coerceNumericCols, List.foldl_cons]
    by_cases hc : c ∈ df.header
    · rw [if_pos hc]
      have := ih (setCol df c (toNumericCol (getCol df c)))
      rw [show coerceNumericCols t (setCol df c (toNumericCol (getCol df c)))
          = List.foldl _ (setCol df c (toNumericCol (getCol df c))) t from rfl] at this
      rw [this, setCol_header_of_mem _ hc]
    · rw [if_neg hc]
      exact ih df

theorem WF_coerceNumericCols {cols : List String} {df : DataFrame}
    (hwf : df.WF) : (coerceNumericCols cols df).WF := by
  induction cols generalizing df with
  | nil => exact hwf
  | cons c t ih =>
    simp only [coerceNumericCols, List.foldl_cons]
    by_cases hc : c ∈ df.header
    · rw [if_pos hc]
      exact ih (WF_setCol hwf (by simp [toNumericCol_length, getCol_length hc]))
    · rw [if_neg hc]
      exact ih hwf

theorem indicatorStep_rows_length (im : Option (List (String × String))) (df : DataFrame) :
    (indicatorStep im df).rows.length = df.rows.length := by
  cases im with
  | none => rfl
  | some m =>
    by_cases hm : m.isEmpty
    · simp [indicatorStep, hm]
    · simp [indicatorStep, hm, coerceNumericCols_rows_length, applyColumnMap_rows]

theorem WF_indicatorStep {im : Option (List (String × String))} {df : DataFrame}
    (hwf : df.WF) : (indicatorStep im df).WF := by
  cases im with
  | none => exact hwf
  | some m =>
    by_cases hm : m.isEmpty
    · simpa [indicatorStep, hm] using hwf
    · simp only [indicatorStep, hm, Bool.false_eq_true, if_false]
      exact WF_coerceNumericCols (WF_applyColumnMap hwf)

theorem ensure_columns_rows_length (cols : List String) (df : DataFrame) :
    (ensure_columns df cols).rows.length = df.rows.length := by
  induction cols generalizing df with
  | nil => rfl
  | cons c t ih =>
    simp only [ensure_columns, List.foldl_cons]
    by_cases hc : c ∈ df.header
    · rw [if_pos hc]
      exact ih df
    · rw [if_neg hc]
      have := ih ⟨df.header ++ [c], df.rows.map (fun r => r ++ [Cell.null])⟩
      rw [show ensure_columns ⟨df.header ++ [c], df.rows.map (fun r => r ++ [Cell.null])⟩ t
          = List.foldl _ ⟨df.header ++ [c], df.rows.map (fun r => r ++ [Cell.null])⟩ t from rfl] at this
      rw [this]
      simp

theorem WF_ensure_columns {cols : List String} {df : DataFrame}
    (hwf : df.WF) : (ensure_columns df cols).WF := by
  induction cols generalizing df with
  | nil => exact hwf
  | cons c t ih =>
    simp only [ensure_columns, List.foldl_cons]
    by_cases hc : c ∈ df.header
    · rw [if_pos hc]
      exact ih hwf
    · rw [if_neg hc]
      refine ih ?_
      intro r hr
      simp only [List.mem_map] at hr
      obtain ⟨q, hq, rfl⟩ := hr
      simp only [List.length_append, List.length_cons, List.length_nil]
      rw [hwf q hq]

theorem WF_priceMid {df : DataFrame} {cm : List (String × String)}
    {du : Option String} {im : Option (List (String × String))}
    (hwf : df.WF) : (priceMid df cm du im).WF :=
  WF_indicatorStep (WF_coerceNumericCols (WF_convertDate (WF_applyColumnMap hwf)))

theorem priceMid_rows_length (df : DataFrame) (cm : List (String × String))
    (du : Option String) (im : Option (List (String × String))) :
    (priceMid df cm du im).rows.length = df.rows.length := by
  unfold priceMid
  rw [indicatorStep_rows_length, coerceNumericCols_rows_length, convertDate_rows_length,
    applyColumnMap_rows]

theorem pricePipeline_rows_length (df : DataFrame) (cm : List (String × String))
    (src cur : String) (du : Option String) (im : Option (List (String × String))) :
    (pricePipeline df cm src cur du im).rows.length = df.rows.length := by
  unfold pricePipeline
  rw [setColScalar_rows_length, setColScalar_rows_length, ensure_columns_rows_length,
    priceMid_rows_length]

theorem WF_pricePipeline {df : DataFrame} {cm : List (String × String)}
    {src cur : String} {du : Option String} {im : Option (List (String × String))}
    (hwf : df.WF) : (pricePipeline df cm src cur du im).WF :=
  WF_setColScalar (WF_setColScalar (WF_ensure_columns (WF_priceMid hwf)))

theorem rateMid_rows_length (df : DataFrame) (cm : List (String × String))
    (du : Option String) :
    (rateMid df cm du).rows.length = df.rows.length := by
  unfold rateMid
  by_cases h : "rate" ∈ (convertDate du (applyColumnMap cm df)).header
  · simp only [if_pos h]
    rw [setCol_rows_length (by simp [toNumericCol_length, getCol_length h]),
      convertDate_rows_length, applyColumnMap_rows]
  · simp only [if_neg h]
    rw [convertDate_rows_length, applyColumnMap_rows]

theorem WF_rateMid {df : DataFrame} {cm : List (String × String)} {du : Option String}
    (hwf : df.WF) : (rateMid df cm du).WF := by
  unfold rateMid
  by_cases h : "rate" ∈ (convertDate du (applyColumnMap cm df)).header
  · simp only [if_pos h]
    exact WF_setCol (WF_convertDate (WF_applyColumnMap hwf))
      (by simp [toNumericCol_length, getCol_length h])
  · simp only [if_neg h]
    exact WF_convertDate (WF_applyColumnMap hwf)

theorem ratePipeline_rows_length (df : DataFrame) (cm : List (String × String))
    (src cur : String) (du : Option String) :
    (ratePipeline df cm src cur du).rows.length = df.rows.length := by
  unfold ratePipeline
  rw [setColScalar_rows_length, setColScalar_rows_length, ensure_columns_rows_length,
    rateMid_rows_length]

theorem pdTail_nonneg_length (n : Int) (rows : List (List Cell)) (hn : 0 ≤ n) :
    (pdTail n rows).length = min n.toNat rows.length := by
  unfold pdTail
  by_cases h0 : n = 0
  · simp [h0]
  · have hpos : 0 < n := lt_of_le_of_ne hn (Ne.symm h0)
    rw [if_neg h0, if_pos hpos]
    simp only [List.length_drop]
    omega

/-! ### `_ensure_columns` value lemmas -/

theorem colIdx_append_self {c : String} {l : List String} (h : c ∉ l) :
    colIdxAux c (l ++ [c]) = some l.length := by
  induction l with
  | nil => simp [colIdxAux]
  | cons x t ih =>
    have hx : x ≠ c := fun he => h (by simp [he])
    rw [List.cons_append, colIdxAux, if_neg hx,
      ih (fun hm => h (by simp [hm]))]
    rfl

theorem getCol_append_null_col {df : DataFrame} {c : String}
    (hwf : df.WF) (hc : c ∈ df.header) :
    getCol ⟨df.header ++ [c'], df.rows.map (fun r => r ++ [Cell.null])⟩ c
      = getCol df c := by
  obtain ⟨i, hi⟩ := Option.isSome_iff_exists.mp (colIdx_isSome_iff.mpr hc)
  have hib := colIdx_lt_length hi
  simp only [getCol, colIdx?, colIdx_append_left [c'] hi, hi, List.map_map]
  apply List.map_congr_left
  intro r hr
  have hlen : r.length = df.header.length := hwf r hr
  simp only [Function.comp_apply, List.getD_eq_getElem?_getD]
  rw [List.getElem?_append_left (by omega)]

theorem ensure_preserves_col {cols : List String} {df : DataFrame} {c : String}
    (hwf : df.WF) (hc : c ∈ df.header) :
    getCol (ensure_columns df cols) c = getCol df c := by
  induction cols generalizing df with
  | nil => rfl
  | cons x t ih =>
    simp only [ensure_columns, List.foldl_cons]
    by_cases hx : x ∈ df.header
    · rw [if_pos hx]
      exact ih hwf hc
    · rw [if_neg hx]
      have hwf' : (DataFrame.mk (df.header ++ [x]) (df.rows.map (fun r => r ++ [Cell.null]))).WF := by
        intro r hr
        simp only [List.mem_map] at hr
        obtain ⟨q, hq, rfl⟩ := hr
        simp only [List.length_append, List.length_cons, List.length_nil]
        rw [hwf q hq]
      have := @ih ⟨df.header ++ [x], df.rows.map (fun r => r ++ [Cell.null])⟩
        hwf' (by simp [hc])
      rw [show ensure_columns ⟨df.header ++ [x], df.rows.map (fun r => r ++ [Cell.null])⟩ t
          = List.foldl _ ⟨df.header ++ [x], df.rows.map (fun r => r ++ [Cell.null])⟩ t from rfl] at this
      rw [this]
      exact getCol_append_null_col hwf hc

theorem ensure_missing_null {cols : List String} {df : DataFrame} {c : String}
    (hwf : df.WF) (hc : c ∈ cols) (hm : c ∉ df.header) :
    ∀ v ∈ getCol (ensure_columns df cols) c, v = Cell.null := by
  induction cols generalizing df with
  | nil => simp at hc
  | cons x t ih =>
    simp only [ensure_columns, List.foldl_cons]
    by_cases hcx : c = x
    · subst hcx
      rw [if_neg hm]
      have hwf' : (DataFrame.mk (df.header ++ [c]) (df.rows.map (fun r => r ++ [Cell.null]))).WF := by
        intro r hr
        simp only [List.mem_map] at hr
        obtain ⟨q, hq, rfl⟩ := hr
        simp only [List.length_append, List.length_cons, List.length_nil]
        rw [hwf q hq]
      have hpres := @ensure_preserves_col t
        ⟨df.header ++ [c], df.rows.map (fun r => r ++ [Cell.null])⟩ c hwf' (by simp)
      rw [show ensure_columns ⟨df.header ++ [c], df.rows.map (fun r => r ++ [Cell.null])⟩ t
          = List.foldl _ ⟨df.header ++ [c], df.rows.map (fun r => r ++ [Cell.null])⟩ t from rfl] at hpres
      rw [hpres]
      intro v hv
      simp only [getCol, colIdx?, colIdx_append_self hm, List.map_map, List.mem_map] at hv
      obtain ⟨r, hr, rfl⟩ := hv
      have hlen : r.length = df.header.length := hwf r hr
      simp only [Function.comp_apply, List.getD_eq_getElem?_getD]
      rw [List.getElem?_append_right (by omega)]
      simp [hlen]
    · have hct : c ∈ t := by
        rcases List.mem_cons.mp hc with h | h
        · exact absurd h hcx
        · exact h
      by_cases hx : x ∈ df.header
      · rw [if_pos hx]
        exact ih hwf hct hm
      · rw [if_neg hx]
        have hwf' : (DataFrame.mk (df.header ++ [x]) (df.rows.map (fun r => r ++ [Cell.null]))).WF := by
          intro r hr
          simp only [List.mem_map] at hr
          obtain ⟨q, hq, rfl⟩ := hr
          simp only [List.length_append, List.length_cons, List.length_nil]
          rw [hwf q hq]
        exact ih hwf' hct (by simp [hm, hcx])

/-! ### C4: fixed schema and null synthesis -/

theorem mem_pdTail {r : List Cell} {n : Int} {rows : List (List Cell)}
    (h : r ∈ pdTail n rows) : r ∈ rows := by
  unfold pdTail at h
  split_ifs at h
  · simp at h
  · exact List.drop_subset _ _ h
  · exact List.drop_subset _ _ h

theorem getCol_tail_subset (p : DataFrame) {n : Int} {c : String} {v : Cell}
    (h : v ∈ getCol ⟨p.header, pdTail n p.rows⟩ c) : v ∈ getCol p c := by
  unfold getCol colIdx? at h ⊢
  cases hidx : colIdxAux c p.header with
  | none =>
    rw [hidx] at h
    simp at h
  | some i =>
    rw [hidx] at h
    simp only [List.mem_map] at h ⊢
    obtain ⟨r, hr, rfl⟩ := h
    exact ⟨r, mem_pdTail hr, rfl⟩

/-- C4: on any non-empty well-formed input, whatever columns the provider
supplied, the price output's header is exactly
`date,open,high,low,close,volume,amount,currency,source` in that order
followed only by the indicator columns physically present; and any canonical
column still missing after renaming is present with null in every row of the
emitted tail (null renders as an empty CSV field). -/
theorem price_schema_completeness (df : DataFrame) (cm : List (String × String))
    (src cur : String) (limit : Int) (fmt : Nat) (du : Option String)
    (im : Option (List (String × String))) (c : String)
    (hwf : df.WF) (hemp : df.empty = false)
    (hc : c ∈ ["date", "open", "high", "low", "close", "volume", "amount"])
    (hmiss : c ∉ (priceMid df cm du im).header) :
    headerCols (normalize_price_df (some df) cm src cur limit fmt du im)
      = PRICE_COLUMNS ++ INDICATOR_COLUMNS.filter
          (fun x => x ∈ (priceTail df cm src cur limit du im).header) ∧
    (∀ v ∈ getCol (priceTail df cm src cur limit du im) c, v = Cell.null) ∧
    (∀ d b, renderCell d b Cell.null = []) := by
  have hcp : c ∈ PRICE_COLUMNS ∧ c ≠ "currency" ∧ c ≠ "source" := by
    simp only [List.mem_cons, List.not_mem_nil, or_false] at hc
    rcases hc with rfl | rfl | rfl | rfl | rfl | rfl | rfl <;>
      exact ⟨by decide, by decide, by decide⟩
  refine ⟨price_success_headerCols df cm src cur limit fmt du im hemp, ?_, fun d b => rfl⟩
  intro v hv
  unfold priceTail at hv
  have hv3 : v ∈ getCol (pricePipeline df cm src cur du im) c :=
    getCol_tail_subset (pricePipeline df cm src cur du im) hv
  have hcur : "currency" ∈ (ensure_columns (priceMid df cm du im) PRICE_COLUMNS).header :=
    ensure_columns_mem (Or.inr (by decide))
  have hsrc : "source" ∈ (setColScalar (ensure_columns (priceMid df cm du im) PRICE_COLUMNS)
      "currency" (Cell.str cur)).header := by
    rw [setColScalar_header_of_mem _ hcur]
    exact ensure_columns_mem (Or.inr (by decide))
  unfold pricePipeline at hv3
  rw [getCol_setColScalar_ne _ hcp.2.2 hsrc, getCol_setColScalar_ne _ hcp.2.1 hcur] at hv3
  exact ensure_missing_null (WF_priceMid hwf) hcp.1 hmiss v hv3

/-- C4 witness: the spec's example, a raw table lacking `volume` and
`amount`. -/
theorem price_schema_completeness_witness :
    ((DataFrame.mk ["date", "close"] [[Cell.str "2024-01-01", Cell.int 5]]).WF ∧
     (DataFrame.mk ["date", "close"] [[Cell.str "2024-01-01", Cell.int 5]]).empty = false ∧
     "volume" ∈ ["date", "open", "high", "low", "close", "volume", "amount"] ∧
     "volume" ∉ (priceMid ⟨["date", "close"], [[Cell.str "2024-01-01", Cell.int 5]]⟩
        [] none none).header) ∧
    (headerCols (normalize_price_df
        (some ⟨["date", "close"], [[Cell.str "2024-01-01", Cell.int 5]]⟩) [] "s" "c" 30 2 none none)
       = PRICE_COLUMNS ++ INDICATOR_COLUMNS.filter
           (fun x => x ∈ (priceTail ⟨["date", "close"], [[Cell.str "2024-01-01", Cell.int 5]]⟩
             [] "s" "c" 30 none none).header) ∧
     (∀ v ∈ getCol (priceTail ⟨["date", "close"], [[Cell.str "2024-01-01", Cell.int 5]]⟩
         [] "s" "c" 30 none none) "volume", v = Cell.null) ∧
     (∀ d b, renderCell d b Cell.null = [])) :=
  ⟨⟨by decide, by decide, by decide, by decide⟩,
   price_schema_completeness ⟨["date", "close"], [[Cell.str "2024-01-01", Cell.int 5]]⟩
     [] "s" "c" 30 2 none none "volume" (by decide) (by decide) (by decide) (by decide)⟩

/-! ### C6: best-effort coercion, row retention, structured output -/

theorem digitsValCore_all_digits {l : List Char} {acc n : Nat}
    (h : digitsValCore l acc = some n) : ∀ c ∈ l, c.isDigit = true := by
  induction l generalizing acc with
  | nil => simp
  | cons c t ih =>
    intro x hx
    unfold digitsValCore at h
    by_cases hd : c.isDigit
    · rw [if_pos hd] at h
      rcases List.mem_cons.mp hx with rfl | hx
      · exact hd
      · exact ih h x hx
    · rw [if_neg hd] at h
      simp at h

theorem int_repr_numeric {cell : Cell} (h : (cellIntRepr cell).isSome) :
    (toNumericCell cell).isSome := by
  cases cell with
  | int n => simp [toNumericCell]
  | str s =>
    simp only [cellIntRepr, parseIntStr?] at h
    simp only [toNumericCell, parseDecimalStr?]
    cases hd : digitsVal? (splitSign (pyStripCh s.data)).2 with
    | none => rw [hd] at h; simp at h
    | some n =>
      have hdig : ∀ c ∈ (splitSign (pyStripCh s.data)).2, c.isDigit = true := by
        unfold digitsVal? at hd
        by_cases hb : (splitSign (pyStripCh s.data)).2.isEmpty
        · rw [if_pos hb] at hd; simp at hd
        · rw [if_neg hb] at hd
          exact digitsValCore_all_digits hd
      have hnodot : '.' ∉ (splitSign (pyStripCh s.data)).2 := by
        intro hmem
        have := hdig '.' hmem
        simp at this
      rw [splitCh_no_sep hnodot]
      simp [hd]
  | null => simp [cellIntRepr] at h
  | float q => simp [cellIntRepr] at h
  | date t => simp [cellIntRepr] at h

theorem toNumericCol_unparsable (vals : List Cell) (i : Nat)
    (hi : i < vals.length) (h : toNumericCell (vals.getD i Cell.null) = none) :
    (toNumericCol vals).getD i Cell.null = Cell.null := by
  have hget : vals.getD i Cell.null = vals[i] := by
    rw [List.getD_eq_getElem?_getD, List.getElem?_eq_getElem hi]
    rfl
  unfold toNumericCol
  by_cases hall : vals.all (fun c => (cellIntRepr c).isSome)
  · exfalso
    have hmem : vals[i] ∈ vals := List.getElem_mem hi
    have := (List.all_eq_true.mp hall) _ hmem
    have hnum := int_repr_numeric (by simpa using this)
    rw [hget] at h
    rw [h] at hnum
    simp at hnum
  · rw [if_neg hall]
    rw [List.getD_eq_getElem?_getD, List.getElem?_map, List.getElem?_eq_getElem hi]
    rw [hget] at h
    simp [h]

/-- C6: the normalizers are total best-effort functions: an unparsable
numeric cell is coerced to null in place (never an exception), an unparsable
date string is coerced to null, every input row survives the pipeline (the
emitted tail has `min limit n` rows of the `n` input rows), and every
possible input — absent, empty or populated — yields a structured text whose
header is either the fixed error schema or the fixed data schema. -/
theorem normalize_best_effort (df : DataFrame) (cm : List (String × String))
    (src cur : String) (limit : Int) (fmt : Nat) (du : Option String)
    (im : Option (List (String × String)))
    (hemp : df.empty = false) (hlim : 0 ≤ limit) :
    (∀ (vals : List Cell) (i : Nat), i < vals.length →
       toNumericCell (vals.getD i Cell.null) = none →
       (toNumericCol vals).getD i Cell.null = Cell.null) ∧
    (∀ vals, (toNumericCol vals).length = vals.length) ∧
    (∀ s, parseIsoDate? s = none → toDatetimeCell du (Cell.str s) = Cell.null) ∧
    (priceTail df cm src cur limit du im).rows.length
      = min limit.toNat df.rows.length ∧
    (rateTail df cm src cur limit du).rows.length
      = min limit.toNat df.rows.length ∧
    (∀ df' : Option DataFrame,
      (∃ inds, inds.Sublist INDICATOR_COLUMNS ∧
        headerCols (normalize_price_df df' cm src cur limit fmt du im)
          = PRICE_COLUMNS ++ inds) ∨
      headerCols (normalize_price_df df' cm src cur limit fmt du im)
        = ["error", "source", "fallback"] ∨
      headerCols (normalize_price_df df' cm src cur limit fmt du im)
        = ["error", "source", "fallback\r"]) ∧
    (∀ df' : Option DataFrame,
      headerCols (normalize_rate_df df' cm src cur limit fmt du) = RATE_COLUMNS ∨
      headerCols (normalize_rate_df df' cm src cur limit fmt du)
        = ["error", "source", "fallback"] ∨
      headerCols (normalize_rate_df df' cm src cur limit fmt du)
        = ["error", "source", "fallback\r"]) := by
  refine ⟨toNumericCol_unparsable, toNumericCol_length,
    fun s h => by simp [toDatetimeCell, h], ?_, ?_, ?_, ?_⟩
  · unfold priceTail
    rw [pdTail_nonneg_length _ _ hlim, pricePipeline_rows_length]
  · unfold rateTail
    rw [pdTail_nonneg_length _ _ hlim, ratePipeline_rows_length]
  · intro df'
    cases df' with
    | none =>
      right
      have : normalize_price_df none cm src cur limit fmt du im
          = format_error_csv "empty data" src none := rfl
      rw [this]
      exact headerCols_format_error_csv "empty data" src none
    | some d =>
      by_cases hde : d.empty
      · right
        have : normalize_price_df (some d) cm src cur limit fmt du im
            = format_error_csv "empty data" src none := by
          simp [normalize_price_df, hde]
        rw [this]
        exact headerCols_format_error_csv "empty data" src none
      · left
        exact ⟨INDICATOR_COLUMNS.filter
            (fun c => c ∈ (priceTail d cm src cur limit du im).header),
          List.filter_sublist _,
          price_success_headerCols d cm src cur limit fmt du im
            (Bool.not_eq_true _ ▸ hde : d.empty = false)⟩
  · intro df'
    cases df' with
    | none =>
      right
      have : normalize_rate_df none cm src cur limit fmt du
          = format_error_csv "empty data" src none := rfl
      rw [this]
      exact headerCols_format_error_csv "empty data" src none
    | some d =>
      by_cases hde : d.empty
      · right
        have : normalize_rate_df (some d) cm src cur limit fmt du
            = format_error_csv "empty data" src none := by
          simp [normalize_rate_df, hde]
        rw [this]
        exact headerCols_format_error_csv "empty data" src none
      · left
        exact rate_success_headerCols d cm src cur limit fmt du
          (Bool.not_eq_true _ ▸ hde : d.empty = false)

/-- C6 witness: the guarantees at a concrete populated table with an
unparsable numeric cell. -/
theorem normalize_best_effort_witness :
    ((DataFrame.mk ["date", "close"] [[Cell.str "2024-01-01", Cell.str "bad"]]).empty = false ∧
     (0 : Int) ≤ 30) ∧
    ((∀ (vals : List Cell) (i : Nat), i < vals.length →
        toNumericCell (vals.getD i Cell.null) = none →
        (toNumericCol vals).getD i Cell.null = Cell.null) ∧
     (∀ vals, (toNumericCol vals).length = vals.length) ∧
     (∀ s, parseIsoDate? s = none → toDatetimeCell none (Cell.str s) = Cell.null) ∧
     (priceTail ⟨["date", "close"], [[Cell.str "2024-01-01", Cell.str "bad"]]⟩
        [] "s" "c" 30 none none).rows.length
       = min (30 : Int).toNat
           (DataFrame.mk ["date", "close"] [[Cell.str "2024-01-01", Cell.str "bad"]]).rows.length ∧
     (rateTail ⟨["date", "close"], [[Cell.str "2024-01-01", Cell.str "bad"]]⟩
        [] "s" "c" 30 none).rows.length
       = min (30 : Int).toNat
           (DataFrame.mk ["date", "close"] [[Cell.str "2024-01-01", Cell.str "bad"]]).rows.length ∧
     (∀ df' : Option DataFrame,
       (∃ inds, inds.Sublist INDICATOR_COLUMNS ∧
         headerCols (normalize_price_df df' [] "s" "c" 30 2 none none)
           = PRICE_COLUMNS ++ inds) ∨
       headerCols (normalize_price_df df' [] "s" "c" 30 2 none none)
         = ["error", "source", "fallback"] ∨
       headerCols (normalize_price_df df' [] "s" "c" 30 2 none none)
         = ["error", "source", "fallback\r"]) ∧
     (∀ df' : Option DataFrame,
       headerCols (normalize_rate_df df' [] "s" "c" 30 2 none) = RATE_COLUMNS ∨
       headerCols (normalize_rate_df df' [] "s" "c" 30 2 none)
         = ["error", "source", "fallback"] ∨
       headerCols (normalize_rate_df df' [] "s" "c" 30 2 none)
         = ["error", "source", "fallback\r"])) :=
  ⟨⟨by decide, by decide⟩,
   normalize_best_effort ⟨["date", "close"], [[Cell.str "2024-01-01", Cell.str "bad"]]⟩
     [] "s" "c" 30 2 none none (by decide) (by decide)⟩

/-! ### C7: the concrete rate scenario -/

/-- C7: on the raw table `[{t: 3, v: "bad"}, {t: 1, v: "10.5"}, {t: 2, v: "20"}]`
with `column_map={"date":"t","rate":"v"}`, `limit=2`, `float_format="%.4f"`,
the output holds exactly the rows for `t=2` and `t=3` sorted ascending by
date, with `rate` null (coerced from `"bad"`) in the `t=3` row and the given
currency and source on both rows. -/
theorem rate_concrete_scenario :
    normalize_rate_df
        (some ⟨["t", "v"],
          [[Cell.int 3, Cell.str "bad"], [Cell.int 1, Cell.str "10.5"],
           [Cell.int 2, Cell.str "20"]]⟩)
        [("date", "t"), ("rate", "v")] "src" "USD" 2 4 none
      = "date,rate,currency,source\n1970-01-01 00:00:00.000000002,20.0000,USD,src\n1970-01-01 00:00:00.000000003,,USD,src" ∧
    getCol (rateTail ⟨["t", "v"],
        [[Cell.int 3, Cell.str "bad"], [Cell.int 1, Cell.str "10.5"],
         [Cell.int 2, Cell.str "20"]]⟩
      [("date", "t"), ("rate", "v")] "src" "USD" 2 none) "date"
      = [Cell.date 2, Cell.date 3] ∧
    getCol (rateTail ⟨["t", "v"],
        [[Cell.int 3, Cell.str "bad"], [Cell.int 1, Cell.str "10.5"],
         [Cell.int 2, Cell.str "20"]]⟩
      [("date", "t"), ("rate", "v")] "src" "USD" 2 none) "rate"
      = [Cell.float ⟨20, 0⟩, Cell.null] ∧
    getCol (rateTail ⟨["t", "v"],
        [[Cell.int 3, Cell.str "bad"], [Cell.int 1, Cell.str "10.5"],
         [Cell.int 2, Cell.str "20"]]⟩
      [("date", "t"), ("rate", "v")] "src" "USD" 2 none) "currency"
      = [Cell.str "USD", Cell.str "USD"] ∧
    getCol (rateTail ⟨["t", "v"],
        [[Cell.int 3, Cell.str "bad"], [Cell.int 1, Cell.str "10.5"],
         [Cell.int 2, Cell.str "20"]]⟩
      [("date", "t"), ("rate", "v")] "src" "USD" 2 none) "source"
      = [Cell.str "src", Cell.str "src"] :=
  ⟨by decide, by decide, by decide, by decide, by decide⟩

/-! ### C9: the caller's dataframe is left untouched -/

theorem heapMut_length (h : List DataFrame) (i : Nat) (f : DataFrame → DataFrame) :
    (heapMut h i f).length = h.length := by
  simp [heapMut]

theorem heapMut_getD_ne {i j : Nat} (hne : i ≠ j) (h : List DataFrame)
    (f : DataFrame → DataFrame) :
    (heapMut h i f).getD j emptyFrame = h.getD j emptyFrame := by
  simp [heapMut, List.getD_eq_getElem?_getD, List.getElem?_set_ne hne]

theorem heapMut_getD_self {i : Nat} (h : List DataFrame) (f : DataFrame → DataFrame)
    (hi : i < h.length) :
    (heapMut h i f).getD i emptyFrame = f (h.getD i emptyFrame) := by
  simp [heapMut, List.getD_eq_getElem?_getD, List.getElem?_set_self hi,
    List.getElem?_eq_getElem hi]

theorem getD_append_last (h : List DataFrame) (x : DataFrame) :
    (h ++ [x]).getD h.length emptyFrame = x := by
  simp [List.getD_eq_getElem?_getD, List.getElem?_append_right (le_refl h.length)]

theorem priceTail_unfold (df : DataFrame) (cm : List (String × String))
    (src cur : String) (limit : Int) (du : Option String)
    (im : Option (List (String × String))) :
    priceTail df cm src cur limit du im
      = ⟨(pricePipeline df cm src cur du im).header,
         pdTail limit (pricePipeline df cm src cur du im).rows⟩ := by
  unfold priceTail
  rfl

theorem normalize_price_df_some_nonempty (df : DataFrame) (cm : List (String × String))
    (src cur : String) (limit : Int) (fmt : Nat) (du : Option String)
    (im : Option (List (String × String))) (hemp : df.empty = false) :
    normalize_price_df (some df) cm src cur limit fmt du im
      = priceEmit (pricePipeline df cm src cur du im) limit fmt := by
  simp only [normalize_price_df, hemp, Bool.false_eq_true, if_false]
  rw [priceTail_unfold]
  rfl

/-- C9: `normalize_price_df` leaves the caller's dataframe unchanged — all
renaming, date parsing, sorting, numeric coercion and column synthesis hit
only the slot allocated by `df.copy()` — and the text produced by the
heap-passing rendition agrees with the pure function. -/
theorem normalize_price_prog_frame (h : List DataFrame) (r : Nat)
    (cm : List (String × String)) (src cur : String) (limit : Int) (fmt : Nat)
    (du : Option String) (im : Option (List (String × String)))
    (hr : r < h.length) :
    (normalize_price_prog h r cm src cur limit fmt du im).2.getD r emptyFrame
      = h.getD r emptyFrame ∧
    (normalize_price_prog h r cm src cur limit fmt du im).1
      = normalize_price_df (some (h.getD r emptyFrame)) cm src cur limit fmt du im := by
  have hne : h.length ≠ r := Nat.ne_of_gt hr
  by_cases hemp : (h.getD r emptyFrame).empty
  · constructor
    · simp only [normalize_price_prog]
      rw [if_pos hemp]
    · simp only [normalize_price_prog, normalize_price_df]
      rw [if_pos hemp, if_pos hemp]
  · have hdata :
        (heapMut (heapMut (heapMut (heapMut (heapMut (heapMut (heapMut
            (h ++ [h.getD r emptyFrame]) h.length (applyColumnMap cm))
            h.length (convertDate du))
            h.length (coerceNumericCols NUMERIC_PRICE_COLS))
            h.length (indicatorStep im))
            h.length (fun d => ensure_columns d PRICE_COLUMNS))
            h.length (fun d => setColScalar d "currency" (Cell.str cur)))
            h.length (fun d => setColScalar d "source" (Cell.str src))).getD
          h.length emptyFrame
          = pricePipeline (h.getD r emptyFrame) cm src cur du im := by
      rw [heapMut_getD_self _ _ (by simp [heapMut_length]),
        heapMut_getD_self _ _ (by simp [heapMut_length]),
        heapMut_getD_self _ _ (by simp [heapMut_length]),
        heapMut_getD_self _ _ (by simp [heapMut_length]),
        heapMut_getD_self _ _ (by simp [heapMut_length]),
        heapMut_getD_self _ _ (by simp [heapMut_length]),
        heapMut_getD_self _ _ (by simp),
        getD_append_last]
      rfl
    constructor
    · simp only [normalize_price_prog, hemp, Bool.false_eq_true, if_false]
      rw [heapMut_getD_ne hne, heapMut_getD_ne hne, heapMut_getD_ne hne,
        heapMut_getD_ne hne, heapMut_getD_ne hne, heapMut_getD_ne hne,
        heapMut_getD_ne hne, List.getD_append _ _ _ _ hr]
    · have hemp' : (h.getD r emptyFrame).empty = false := Bool.not_eq_true _ ▸ hemp
      have hstep : (normalize_price_prog h r cm src cur limit fmt du im).1
          = priceEmit (pricePipeline (h.getD r emptyFrame) cm src cur du im) limit fmt := by
        simp only [normalize_price_prog, hemp', Bool.false_eq_true, if_false]
        exact congrArg (fun d => priceEmit d limit fmt) hdata
      rw [hstep, normalize_price_df_some_nonempty _ cm src cur limit fmt du im hemp']

/-- C9 witness: a concrete one-frame heap. -/
theorem normalize_price_prog_frame_witness :
    (0 : Nat) < [(⟨["date", "close"], [[Cell.str "2024-01-01", Cell.int 5]]⟩ : DataFrame)].length ∧
    ((normalize_price_prog [⟨["date", "close"], [[Cell.str "2024-01-01", Cell.int 5]]⟩]
        0 [] "s" "c" 30 2 none none).2.getD 0 emptyFrame
      = [(⟨["date", "close"], [[Cell.str "2024-01-01", Cell.int 5]]⟩ : DataFrame)].getD 0 emptyFrame ∧
     (normalize_price_prog [⟨["date", "close"], [[Cell.str "2024-01-01", Cell.int 5]]⟩]
        0 [] "s" "c" 30 2 none none).1
      = normalize_price_df
          (some ([(⟨["date", "close"], [[Cell.str "2024-01-01", Cell.int 5]]⟩ : DataFrame)].getD 0 emptyFrame))
          [] "s" "c" 30 2 none none) :=
  ⟨by decide,
   normalize_price_prog_frame [⟨["date", "close"], [[Cell.str "2024-01-01", Cell.int 5]]⟩]
     0 [] "s" "c" 30 2 none none (by decide)⟩

/-! ### C5: sort commutes with column projection; value-level column lemmas -/

theorem map_insertRow (f : α → β) (le : β → β → Bool) (x : α) (l : List α) :
    (insertRow (fun a b => le (f a) (f b)) x l).map f = insertRow le (f x) (l.map f) := by
  induction l with
  | nil => rfl
  | cons y ys ih =>
    by_cases h : le (f x) (f y)
    · simp [insertRow, h]
    · simp [insertRow, h, ih]

theorem map_sortRows (f : α → β) (le : β → β → Bool) (l : List α) :
    (sortRows (fun a b => le (f a) (f b)) l).map f = sortRows le (l.map f) := by
  induction l with
  | nil => rfl
  | cons x xs ih => simp [sortRows, map_insertRow, ih]

theorem map_zip_set_getD {i : Nat} (rows : List (List Cell)) (vals : List Cell)
    (hlen : vals.length = rows.length) (hrow : ∀ r ∈ rows, i < r.length) :
    ((rows.zip vals).map (fun p => p.1.set i p.2)).map (fun r => r.getD i Cell.null) = vals := by
  induction rows generalizing vals with
  | nil =>
    cases vals with
    | nil => rfl
    | cons v vs => simp at hlen
  | cons r rs ih =>
    cases vals with
    | nil => simp at hlen
    | cons v vs =>
      simp only [List.zip_cons_cons, List.map_cons, List.cons.injEq]
      constructor
      · have : i < r.length := hrow r (by simp)
        simp [List.getD_eq_getElem?_getD, List.getElem?_set_self this]
      · exact ih vs (by simpa using hlen) (fun q hq => hrow q (by simp [hq]))

theorem map_zip_set_getD_ne {i j : Nat} (hij : i ≠ j) (rows : List (List Cell))
    (vals : List Cell) (hlen : vals.length = rows.length) :
    ((rows.zip vals).map (fun p => p.1.set i p.2)).map (fun r => r.getD j Cell.null)
      = rows.map (fun r => r.getD j Cell.null) := by
  induction rows generalizing vals with
  | nil => rfl
  | cons r rs ih =>
    cases vals with
    | nil => simp at hlen
    | cons v vs =>
      simp only [List.zip_cons_cons, List.map_cons, List.cons.injEq]
      constructor
      · simp [List.getD_eq_getElem?_getD, List.getElem?_set_ne hij]
      · exact ih vs (by simpa using hlen)

theorem getCol_setCol_self {df : DataFrame} {c : String} {vals : List Cell}
    (hwf : df.WF) (hc : c ∈ df.header) (hlen : vals.length = df.rows.length) :
    getCol (setCol df c vals) c = vals := by
  obtain ⟨i, hi⟩ := Option.isSome_iff_exists.mp (colIdx_isSome_iff.mpr hc)
  have hib := colIdx_lt_length hi
  simp only [setCol, getCol, colIdx?, hi]
  exact map_zip_set_getD df.rows vals hlen (fun r hr => by rw [hwf r hr]; exact hib)

theorem getCol_setCol_ne {df : DataFrame} {c c' : String} {vals : List Cell}
    (hne : c ≠ c') (hc' : c' ∈ df.header) (hlen : vals.length = df.rows.length) :
    getCol (setCol df c' vals) c = getCol df c := by
  obtain ⟨i, hi⟩ := Option.isSome_iff_exists.mp (colIdx_isSome_iff.mpr hc')
  simp only [setCol, colIdx?, hi]
  cases hcs : colIdxAux c df.header with
  | none => simp [getCol, colIdx?, hcs]
  | some j =>
    have hij : i ≠ j := by
      intro he
      subst he
      have h1 := colIdx_getElem hi
      have h2 := colIdx_getElem hcs
      rw [h1] at h2
      exact hne (by injection h2 with h; exact h.symm)
    simp only [getCol, colIdx?, hcs]
    exact map_zip_set_getD_ne hij df.rows vals hlen

theorem getCol_sortByDate {df : DataFrame} (hc : "date" ∈ df.header) :
    getCol (sortByDate df) "date" = sortRows dateLe (getCol df "date") := by
  obtain ⟨i, hi⟩ := Option.isSome_iff_exists.mp (colIdx_isSome_iff.mpr hc)
  simp only [sortByDate, colIdx?, hi, getCol]
  exact map_sortRows (fun r => r.getD i Cell.null) dateLe df.rows

theorem getCol_convertDate {df : DataFrame} {du : Option String}
    (hwf : df.WF) (hc : "date" ∈ df.header) :
    getCol (convertDate du df) "date"
      = sortRows dateLe ((getCol df "date").map (toDatetimeCell du)) := by
  unfold convertDate
  rw [if_pos hc]
  have hlen : ((getCol df "date").map (toDatetimeCell du)).length = df.rows.length := by
    simp [getCol_length hc]
  have hmemset : "date" ∈ (setCol df "date" ((getCol df "date").map (toDatetimeCell du))).header := by
    rw [setCol_header_of_mem _ hc]
    exact hc
  rw [getCol_sortByDate hmemset, getCol_setCol_self hwf hc hlen]

theorem getCol_coerceNumericCols_ne {cols : List String} {df : DataFrame} {c : String}
    (hnc : c ∉ cols) :
    getCol (coerceNumericCols cols df) c = getCol df c := by
  induction cols generalizing df with
  | nil => rfl
  | cons x t ih =>
    have hcx : c ≠ x := fun he => hnc (by simp [he])
    have hct : c ∉ t := fun hm => hnc (by simp [hm])
    simp only [coerceNumericCols, List.foldl_cons]
    by_cases hx : x ∈ df.header
    · rw [if_pos hx]
      have hstep := @getCol_setCol_ne df c x (toNumericCol (getCol df x)) hcx hx
        (by simp [toNumericCol_length, getCol_length hx])
      have hrec := @ih (setCol df x (toNumericCol (getCol df x))) hct
      rw [show coerceNumericCols t (setCol df x (toNumericCol (getCol df x)))
          = List.foldl _ (setCol df x (toNumericCol (getCol df x))) t from rfl] at hrec
      rw [hrec, hstep]
    · rw [if_neg hx]
      exact @ih df hct

theorem dateLe_trans : ∀ a b c : Cell,
    dateLe a b = true → dateLe b c = true → dateLe a c = true := by
  intro a b c hab hbc
  cases a <;> cases b <;> cases c <;> simp_all [dateLe] <;> omega

theorem dateLe_total : ∀ a b : Cell, dateLe a b = true ∨ dateLe b a = true := by
  intro a b
  cases a <;> cases b <;> simp [dateLe] <;> omega

theorem pdTail_nonneg_drop {n : Int} (rows : List (List Cell)) (hn : 0 ≤ n) :
    pdTail n rows = rows.drop (rows.length - n.toNat) := by
  unfold pdTail
  by_cases h0 : n = 0
  · simp [h0, List.drop_length]
  · have hpos : 0 < n := lt_of_le_of_ne hn (Ne.symm h0)
    rw [if_neg h0, if_pos hpos]

theorem getCol_tail_drop (p : DataFrame) {n : Int} (c : String) (hn : 0 ≤ n) :
    getCol ⟨p.header, pdTail n p.rows⟩ c
      = (getCol p c).drop (p.rows.length - n.toNat) := by
  unfold getCol colIdx?
  cases hidx : colIdxAux c p.header with
  | none => simp
  | some i =>
    simp only
    rw [pdTail_nonneg_drop _ hn, List.map_drop]

/-- The date column of the whole price pipeline (no indicator map) is the
ascending sort of the parsed dates of the renamed input. -/
theorem getCol_pricePipeline_date (df : DataFrame) (cm : List (String × String))
    (src cur : String) (du : Option String) (hwf : df.WF)
    (hmem : "date" ∈ (applyColumnMap cm df).header) :
    getCol (pricePipeline df cm src cur du none) "date"
      = sortRows dateLe
          ((getCol (applyColumnMap cm df) "date").map (toDatetimeCell du)) := by
  have hwf1 : (applyColumnMap cm df).WF := WF_applyColumnMap hwf
  have hs := @getCol_convertDate (applyColumnMap cm df) du hwf1 hmem
  have hcoerce : getCol (coerceNumericCols NUMERIC_PRICE_COLS
        (convertDate du (applyColumnMap cm df))) "date"
      = getCol (convertDate du (applyColumnMap cm df)) "date" :=
    getCol_coerceNumericCols_ne (by decide)
  have hmid : priceMid df cm du none
      = coerceNumericCols NUMERIC_PRICE_COLS (convertDate du (applyColumnMap cm df)) := rfl
  have hdm : "date" ∈ (priceMid df cm du none).header := by
    rw [hmid, coerceNumericCols_header, convertDate_header]
    exact hmem
  have hwfmid : (priceMid df cm du none).WF := WF_priceMid hwf
  have hensure : getCol (ensure_columns (priceMid df cm du none) PRICE_COLUMNS) "date"
      = getCol (priceMid df cm du none) "date" :=
    ensure_preserves_col hwfmid hdm
  have hcur : "currency" ∈ (ensure_columns (priceMid df cm du none) PRICE_COLUMNS).header :=
    ensure_columns_mem (Or.inr (by decide))
  have hsrc : "source" ∈ (setColScalar (ensure_columns (priceMid df cm du none) PRICE_COLUMNS)
      "currency" (Cell.str cur)).header := by
    rw [setColScalar_header_of_mem _ hcur]
    exact ensure_columns_mem (Or.inr (by decide))
  unfold pricePipeline
  rw [getCol_setColScalar_ne _ (by decide) hsrc, getCol_setColScalar_ne _ (by decide) hcur,
    hensure, hmid, hcoerce, hs]

/-- C5: for a non-empty well-formed input with a date column whose values all
parse, and `0 ≤ limit ≤ row count`, the emitted tail's date column holds
exactly `limit` values, in ascending order, and the input's parsed dates
split into the kept values plus dropped values that all precede them — the
`limit` chronologically-latest rows in ascending date order. -/
theorem price_row_limit_ordering (df : DataFrame) (cm : List (String × String))
    (src cur : String) (limit : Int) (du : Option String)
    (hwf : df.WF) (hemp : df.empty = false)
    (hmem : "date" ∈ (applyColumnMap cm df).header)
    (hdates : ∀ v ∈ (getCol (applyColumnMap cm df) "date").map (toDatetimeCell du),
       ∃ t, v = Cell.date t)
    (hlim0 : 0 ≤ limit) (hlim : limit ≤ (df.rows.length : Int)) :
    (getCol (priceTail df cm src cur limit du none) "date").length = limit.toNat ∧
    (getCol (priceTail df cm src cur limit du none) "date").Pairwise
      (fun a b => dateLe a b = true) ∧
    ∃ dropped,
      (((getCol (applyColumnMap cm df) "date").map (toDatetimeCell du)).Perm
        (dropped ++ getCol (priceTail df cm src cur limit du none) "date")) ∧
      ∀ a ∈ dropped, ∀ b ∈ getCol (priceTail df cm src cur limit du none) "date",
        dateLe a b = true := by
  have hdcl : ((getCol (applyColumnMap cm df) "date").map (toDatetimeCell du)).length
      = df.rows.length := by
    rw [List.length_map, getCol_length hmem, applyColumnMap_rows]
  have hslen : (sortRows dateLe
      ((getCol (applyColumnMap cm df) "date").map (toDatetimeCell du))).length
      = df.rows.length := by
    rw [sortRows_length, hdcl]
  have htail : getCol (priceTail df cm src cur limit du none) "date"
      = (sortRows dateLe
          ((getCol (applyColumnMap cm df) "date").map (toDatetimeCell du))).drop
          (df.rows.length - limit.toNat) := by
    rw [priceTail_unfold]
    rw [getCol_tail_drop _ _ hlim0, getCol_pricePipeline_date df cm src cur du hwf hmem,
      pricePipeline_rows_length]
  have hsorted := sortRows_sorted dateLe_trans dateLe_total
    ((getCol (applyColumnMap cm df) "date").map (toDatetimeCell du))
  have hperm := sortRows_perm dateLe
    ((getCol (applyColumnMap cm df) "date").map (toDatetimeCell du))
  refine ⟨?_, ?_, ?_⟩
  · rw [htail, List.length_drop, hslen]
    omega
  · rw [htail]
    exact hsorted.sublist (List.drop_sublist _ _)
  · refine ⟨(sortRows dateLe
        ((getCol (applyColumnMap cm df) "date").map (toDatetimeCell du))).take
        (df.rows.length - limit.toNat), ?_, ?_⟩
    · rw [htail, List.take_append_drop]
      exact hperm.symm
    · intro a ha b hb
      rw [htail] at hb
      have := hsorted
      rw [← List.take_append_drop (df.rows.length - limit.toNat)
        (sortRows dateLe ((getCol (applyColumnMap cm df) "date").map (toDatetimeCell du)))] at this
      exact (List.pairwise_append.mp this).2.2 a ha b hb

theorem exampleScrambled_dates_parse :
    ∀ v ∈ (getCol (applyColumnMap [] exampleScrambled) "date").map (toDatetimeCell none),
      ∃ t, v = Cell.date t := by
  intro v hv
  rw [show (getCol (applyColumnMap [] exampleScrambled) "date").map (toDatetimeCell none)
      = [Cell.date 1704412800000000000, Cell.date 1704067200000000000,
         Cell.date 1704758400000000000, Cell.date 1704240000000000000,
         Cell.date 1704585600000000000, Cell.date 1704153600000000000,
         Cell.date 1704844800000000000, Cell.date 1704326400000000000,
         Cell.date 1704672000000000000, Cell.date 1704499200000000000] from by decide] at hv
  simp only [List.mem_cons, List.not_mem_nil, or_false] at hv
  rcases hv with rfl | rfl | rfl | rfl | rfl | rfl | rfl | rfl | rfl | rfl <;> exact ⟨_, rfl⟩

/-- C5 witness: ten rows out of chronological order with `limit = 3`. -/
theorem price_row_limit_ordering_witness :
    (exampleScrambled.WF ∧ exampleScrambled.empty = false ∧
     "date" ∈ (applyColumnMap [] exampleScrambled).header ∧
     (∀ v ∈ (getCol (applyColumnMap [] exampleScrambled) "date").map (toDatetimeCell none),
        ∃ t, v = Cell.date t) ∧
     (0 : Int) ≤ 3 ∧ (3 : Int) ≤ (exampleScrambled.rows.length : Int)) ∧
    ((getCol (priceTail exampleScrambled [] "s" "c" 3 none none) "date").length
        = (3 : Int).toNat ∧
     (getCol (priceTail exampleScrambled [] "s" "c" 3 none none) "date").Pairwise
       (fun a b => dateLe a b = true) ∧
     ∃ dropped,
       (((getCol (applyColumnMap [] exampleScrambled) "date").map (toDatetimeCell none)).Perm
         (dropped ++ getCol (priceTail exampleScrambled [] "s" "c" 3 none none) "date")) ∧
       ∀ a ∈ dropped, ∀ b ∈ getCol (priceTail exampleScrambled [] "s" "c" 3 none none) "date",
         dateLe a b = true) :=
  ⟨⟨by decide, by decide, by decide, exampleScrambled_dates_parse, by decide, by decide⟩,
   price_row_limit_ordering exampleScrambled [] "s" "c" 3 none
     (by decide) (by decide) (by decide) exampleScrambled_dates_parse (by decide) (by decide)⟩
